import Mathlib

/-!
Verification of the single-pass recursive-descent calculator
(`src/main.rs`): a stateful cursor over a character sequence that
combines lexical scanning and grammar-directed evaluation.

Modelling conventions:
* The Rust `Calculator` struct is embedded as a Lean structure with the
  same field names.  Machine integers (`i32`) are modelled as unbounded
  `Int`, following the specification's stance that overflow is an
  accepted limitation of the design rather than observable behaviour.
* `process::exit(1)` error paths are modelled with `Except CalcError`:
  each distinct diagnostic message of the source becomes one error
  constructor.  A would-be out-of-bounds indexing into the character
  vector (a Rust panic) is modelled by the distinguished error
  `CalcError.indexPanic`, so that panic-freedom is a provable statement.
* The `while` loops of the scanner (whitespace skipping, digit
  consumption/accumulation) are embedded as structural recursions over
  the remaining suffix of the character list; the source's "rewind and
  rescan" quirk during digit consumption collapses to computing the
  value and the final index from the same start position, which the
  source itself does (it resets the index and re-advances over the same
  digits).
* The mutually recursive grammar procedures are embedded with an
  explicit fuel argument; running out of fuel yields the distinguished
  error `CalcError.outOfFuel`.  All theorems about terminating runs are
  stated for every sufficiently large fuel.
* Debug printing is I/O; the `debug_mode` flag is carried in the state
  (as in the source) and the noninterference theorem shows it never
  influences scanning or evaluation.
-/

deriving instance DecidableEq for Except

/-- Token classification, mirroring `enum TokenType` in the source. -/
inductive TokenType where
  | NUMBER
  | ADD
  | SUB
  | MUL
  | DIV
  | LEFTPAREN
  | RIGHTPAREN
  | END
  | UNKNOWN
  deriving DecidableEq, Repr

/-- Error outcomes: one constructor per fatal diagnostic of the source,
plus `indexPanic` (a modelled out-of-bounds vector access, impossible by
the bounds checks) and `outOfFuel` (exhaustion of the recursion fuel of
the embedding, not a behaviour of the source). -/
inductive CalcError where
  | unknownToken : Char → CalcError
  | divByZero
  | unaryMinusOperand
  | missingRightParen
  | illegalPrimary
  | trailingInput
  | indexPanic
  | outOfFuel
  deriving DecidableEq, Repr

/-- Parser state, mirroring `struct Calculator` in the source. -/
structure Calculator where
  src_chars : List Char
  current_index : Nat
  current_token : TokenType
  number_val : Int
  debug_mode : Bool
  deriving DecidableEq, Repr

/-- `Calculator::new`. -/
def Calculator.new (src : List Char) (debug : Bool) : Calculator :=
  { src_chars := src
    current_index := 0
    current_token := TokenType.UNKNOWN
    number_val := 0
    debug_mode := debug }

/-- Rust `char::is_whitespace`: the Unicode `White_Space` code points. -/
def rustIsWhitespace (c : Char) : Bool :=
  c = '\u0009' || c = '\u000A' || c = '\u000B' || c = '\u000C' ||
  c = '\u000D' || c = ' ' || c = '\u0085' || c = ' ' ||
  c = ' ' || c = ' ' || c = ' ' || c = ' ' ||
  c = ' ' || c = ' ' || c = ' ' || c = ' ' ||
  c = ' ' || c = ' ' || c = ' ' || c = ' ' ||
  c = ' ' || c = ' ' || c = ' ' || c = ' ' ||
  c = '　'

/-- Rust `char::is_digit(10)`: an ASCII decimal digit. -/
def rustIsDigit (c : Char) : Bool :=
  '0' ≤ c && c ≤ '9'

/-- Rust `char::to_digit(10).unwrap()` on a character known to be a
decimal digit, as an integer (the accumulated value is an `i32`). -/
def rustToDigit (c : Char) : Int :=
  ((c.toNat - 48 : Nat) : Int)

/-- The whitespace-skipping loop of `get_token` (lines 57-61): number of
whitespace characters at the head of the remaining input.  The loop
advances the index by exactly this count. -/
def wsCount : List Char → Nat
  | [] => 0
  | c :: rest => if rustIsWhitespace c then wsCount rest + 1 else 0

/-- The digit-consumption loops of `get_token` (lines 83-90 and
104-108): length of the maximal digit run at the head of the remaining
input. -/
def digCount : List Char → Nat
  | [] => 0
  | c :: rest => if rustIsDigit c then digCount rest + 1 else 0

/-- The digit-accumulation loop of `get_token` (lines 83-90):
`value = value * 10 + digit` over the maximal digit run at the head of
the remaining input, starting from accumulator `v`. -/
def digAccum : List Char → Int → Int
  | [], v => v
  | c :: rest, v =>
      if rustIsDigit c then digAccum rest (v * 10 + rustToDigit c) else v

/-- The body of `get_token` after the whitespace skip, parameterised by
the post-skip index `i` (source lines 63-109).  The single indexing
expression `self.src_chars[self.current_index]` at line 69 is modelled
with `List.getElem?`; a `none` result would be the Rust index panic. -/
def gtAux (c : Calculator) (i : Nat) : Except CalcError Calculator :=
  if c.src_chars.length ≤ i then
    Except.ok { c with current_index := i, current_token := TokenType.END }
  else
    match c.src_chars[i]? with
    | none => Except.error CalcError.indexPanic
    | some ch =>
      if ch = '+' then
        Except.ok { c with current_index := i + 1, current_token := TokenType.ADD }
      else if ch = '-' then
        Except.ok { c with current_index := i + 1, current_token := TokenType.SUB }
      else if ch = '*' then
        Except.ok { c with current_index := i + 1, current_token := TokenType.MUL }
      else if ch = '/' then
        Except.ok { c with current_index := i + 1, current_token := TokenType.DIV }
      else if ch = '(' then
        Except.ok { c with current_index := i + 1, current_token := TokenType.LEFTPAREN }
      else if ch = ')' then
        Except.ok { c with current_index := i + 1, current_token := TokenType.RIGHTPAREN }
      else if rustIsDigit ch then
        Except.ok { c with
          current_index := i + digCount (c.src_chars.drop i),
          current_token := TokenType.NUMBER,
          number_val := digAccum (c.src_chars.drop i) 0 }
      else
        Except.error (CalcError.unknownToken ch)

/-- `Calculator::get_token` (source lines 55-112): skip whitespace, then
classify the character at the resulting index. -/
def get_token (c : Calculator) : Except CalcError Calculator :=
  gtAux c (c.current_index + wsCount (c.src_chars.drop c.current_index))

mutual

/-- `Calculator::eval_expr` (source lines 116-119). -/
def eval_expr : Nat → Calculator → Except CalcError (Int × Calculator)
  | 0, _ => Except.error CalcError.outOfFuel
  | fuel + 1, c => eval_add_sub_expr fuel c

/-- `Calculator::eval_add_sub_expr` (source lines 122-140), entry. -/
def eval_add_sub_expr : Nat → Calculator → Except CalcError (Int × Calculator)
  | 0, _ => Except.error CalcError.outOfFuel
  | fuel + 1, c => do
      let (result, c1) ← eval_mul_div_expr fuel c
      addSubLoop fuel result c1

/-- The `while` loop of `eval_add_sub_expr` (source lines 127-137). -/
def addSubLoop : Nat → Int → Calculator → Except CalcError (Int × Calculator)
  | 0, _, _ => Except.error CalcError.outOfFuel
  | fuel + 1, result, c =>
      if c.current_token = TokenType.ADD ∨ c.current_token = TokenType.SUB then do
        let op_token := c.current_token
        let c1 ← get_token c
        let (temp_val, c2) ← eval_mul_div_expr fuel c1
        match op_token with
        | TokenType.ADD => addSubLoop fuel (result + temp_val) c2
        | TokenType.SUB => addSubLoop fuel (result - temp_val) c2
        | _ => addSubLoop fuel result c2
      else
        Except.ok (result, c)

/-- `Calculator::eval_mul_div_expr` (source lines 143-166), entry. -/
def eval_mul_div_expr : Nat → Calculator → Except CalcError (Int × Calculator)
  | 0, _ => Except.error CalcError.outOfFuel
  | fuel + 1, c => do
      let (result, c1) ← eval_primary_expr fuel c
      mulDivLoop fuel result c1

/-- The `while` loop of `eval_mul_div_expr` (source lines 148-163),
including the divisor-zero check made before the division. -/
def mulDivLoop : Nat → Int → Calculator → Except CalcError (Int × Calculator)
  | 0, _, _ => Except.error CalcError.outOfFuel
  | fuel + 1, result, c =>
      if c.current_token = TokenType.MUL ∨ c.current_token = TokenType.DIV then do
        let op_token := c.current_token
        let c1 ← get_token c
        let (temp_val, c2) ← eval_primary_expr fuel c1
        match op_token with
        | TokenType.MUL => mulDivLoop fuel (result * temp_val) c2
        | TokenType.DIV =>
            if temp_val = 0 then Except.error CalcError.divByZero
            else mulDivLoop fuel (Int.tdiv result temp_val) c2
        | _ => mulDivLoop fuel result c2
      else
        Except.ok (result, c)

/-- `Calculator::eval_primary_expr` (source lines 169-205). -/
def eval_primary_expr : Nat → Calculator → Except CalcError (Int × Calculator)
  | 0, _ => Except.error CalcError.outOfFuel
  | fuel + 1, c =>
      match c.current_token with
      | TokenType.NUMBER => do
          let val := c.number_val
          let c1 ← get_token c
          Except.ok (val, c1)
      | TokenType.SUB => do
          let c1 ← get_token c
          if c1.current_token = TokenType.NUMBER then do
            let val := -c1.number_val
            let c2 ← get_token c1
            Except.ok (val, c2)
          else if c1.current_token = TokenType.LEFTPAREN then do
            let (v, c2) ← eval_primary_expr fuel c1
            Except.ok (-v, c2)
          else
            Except.error CalcError.unaryMinusOperand
      | TokenType.LEFTPAREN => do
          let c1 ← get_token c
          let (v, c2) ← eval_expr fuel c1
          if c2.current_token ≠ TokenType.RIGHTPAREN then
            Except.error CalcError.missingRightParen
          else do
            let c3 ← get_token c2
            Except.ok (v, c3)
      | _ => Except.error CalcError.illegalPrimary
end

/-- The parsing part of `main` (source lines 219-229): prime the first
token, evaluate the expression, then require the `End` token. -/
def runCalc (fuel : Nat) (src : List Char) (debug : Bool) :
    Except CalcError Int := do
  let c0 := Calculator.new src debug
  let c1 ← get_token c0
  let (expr_val, c2) ← eval_expr fuel c1
  if c2.current_token ≠ TokenType.END then
    Except.error CalcError.trailingInput
  else
    Except.ok expr_val

/-- Run the calculator on a string literal with ample fuel (as `main`
does, with debug mode enabled). -/
def runStr (s : String) : Except CalcError Int :=
  runCalc 64 s.data true

example : runStr "1-2-3" = Except.ok (-4) := by decide
example : runStr "8/4/2" = Except.ok 1 := by decide
example : runStr "2+3*4" = Except.ok 14 := by decide
example : runStr "(2+3)*4" = Except.ok 20 := by decide
example : runStr "-5+3" = Except.ok (-2) := by decide
example : runStr "-(2+3)" = Except.ok (-5) := by decide
example : runStr "  1 +  2 " = Except.ok 3 := by decide
example : runStr "5/0" = Except.error CalcError.divByZero := by decide
example : runStr "2+" = Except.error CalcError.illegalPrimary := by decide
example : runStr "(1+2" = Except.error CalcError.missingRightParen := by decide
example : runStr "1 2" = Except.error CalcError.trailingInput := by decide
example : runStr "007" = Except.ok 7 := by decide

/-! ## Specification side: tokens, renderings, and the expression grammar

These definitions follow the specification's words ("standard
left-to-right, precedence-respecting integer arithmetic with truncating
division" over the published grammar) and are compared with the
evaluator above by the refinement theorems. -/

/-- A lexical token of the published grammar, with the numeric payload
attached to number tokens. -/
inductive Tok where
  | num : Nat → Tok
  | add
  | sub
  | mul
  | div
  | lp
  | rp
  deriving DecidableEq, Repr

/-- The character of a single-character token. -/
def opChar : Tok → Option Char
  | Tok.num _ => none
  | Tok.add => some '+'
  | Tok.sub => some '-'
  | Tok.mul => some '*'
  | Tok.div => some '/'
  | Tok.lp => some '('
  | Tok.rp => some ')'

/-- A digit run interpreted as a base-10 integer (most significant digit
first), the specification's reading of a `NUMBER` literal. -/
def decVal : List Char → Nat
  | [] => 0
  | c :: rest => (c.toNat - 48) * 10 ^ rest.length + decVal rest

/-- Whether a character sequence starts with an ASCII digit. -/
def digStart : List Char → Bool
  | [] => false
  | c :: _ => rustIsDigit c

/-- `Renders ts s`: the character sequence `s` spells exactly the token
sequence `ts`, with arbitrary whitespace between tokens.  A number token
is spelt by any nonempty ASCII digit run with its base-10 value (leading
zeros permitted); the run must be maximal, i.e. the following character
is not a digit. -/
inductive Renders : List Tok → List Char → Prop where
  | nil : Renders [] []
  | ws {ts s} (ch : Char) (hws : rustIsWhitespace ch = true)
      (h : Renders ts s) : Renders ts (ch :: s)
  | op {ts s} (t : Tok) (ch : Char) (hop : opChar t = some ch)
      (h : Renders ts s) : Renders (t :: ts) (ch :: s)
  | num {ts s} (ds : List Char) (hne : ds ≠ [])
      (hds : ∀ c ∈ ds, rustIsDigit c = true)
      (hsep : digStart s = false)
      (h : Renders ts s) : Renders (Tok.num (decVal ds) :: ts) (ds ++ s)

mutual

/-- `AddSubExpr ::= MulDivExpr { ('+'|'-') MulDivExpr }`. -/
inductive AExpr where
  | mk : MExpr → ATail → AExpr

/-- The (possibly empty) `{ ('+'|'-') MulDivExpr }` repetition. -/
inductive ATail where
  | nil : ATail
  | consAdd : MExpr → ATail → ATail
  | consSub : MExpr → ATail → ATail

/-- `MulDivExpr ::= PrimaryExpr { ('*'|'/') PrimaryExpr }`. -/
inductive MExpr where
  | mk : PExpr → MTail → MExpr

/-- The (possibly empty) `{ ('*'|'/') PrimaryExpr }` repetition. -/
inductive MTail where
  | nil : MTail
  | consMul : PExpr → MTail → MTail
  | consDiv : PExpr → MTail → MTail

/-- `PrimaryExpr ::= NUMBER | '(' Expr ')'` (the fragment of the grammar
over literals, the four binary operators and parentheses). -/
inductive PExpr where
  | num : Nat → PExpr
  | paren : AExpr → PExpr

end

mutual

/-- Specification value of an additive expression: left-to-right fold,
`none` as soon as a division by zero occurs. -/
def valA : AExpr → Option Int
  | AExpr.mk m t => Option.bind (valM m) (fun v => valATail v t)

/-- Folding the additive tail left-to-right from accumulator `v`. -/
def valATail (v : Int) : ATail → Option Int
  | ATail.nil => some v
  | ATail.consAdd m t => Option.bind (valM m) (fun w => valATail (v + w) t)
  | ATail.consSub m t => Option.bind (valM m) (fun w => valATail (v - w) t)

/-- Specification value of a multiplicative expression. -/
def valM : MExpr → Option Int
  | MExpr.mk p t => Option.bind (valP p) (fun v => valMTail v t)

/-- Folding the multiplicative tail left-to-right from accumulator `v`,
with truncating division and `none` on a zero divisor. -/
def valMTail (v : Int) : MTail → Option Int
  | MTail.nil => some v
  | MTail.consMul p t => Option.bind (valP p) (fun w => valMTail (v * w) t)
  | MTail.consDiv p t =>
      Option.bind (valP p) (fun w =>
        if w = 0 then none else valMTail (Int.tdiv v w) t)

/-- Specification value of a primary expression. -/
def valP : PExpr → Option Int
  | PExpr.num n => some (n : Int)
  | PExpr.paren a => valA a

end

mutual

/-- Token sequence of an additive expression. -/
def toksA : AExpr → List Tok
  | AExpr.mk m t => toksM m ++ toksATail t

/-- Token sequence of an additive tail. -/
def toksATail : ATail → List Tok
  | ATail.nil => []
  | ATail.consAdd m t => Tok.add :: (toksM m ++ toksATail t)
  | ATail.consSub m t => Tok.sub :: (toksM m ++ toksATail t)

/-- Token sequence of a multiplicative expression. -/
def toksM : MExpr → List Tok
  | MExpr.mk p t => toksP p ++ toksMTail t

/-- Token sequence of a multiplicative tail. -/
def toksMTail : MTail → List Tok
  | MTail.nil => []
  | MTail.consMul p t => Tok.mul :: (toksP p ++ toksMTail t)
  | MTail.consDiv p t => Tok.div :: (toksP p ++ toksMTail t)

/-- Token sequence of a primary expression. -/
def toksP : PExpr → List Tok
  | PExpr.num n => [Tok.num n]
  | PExpr.paren a => Tok.lp :: (toksA a ++ [Tok.rp])

end

/-- The continuation token sequence does not begin with `+` or `-`
(so an additive loop correctly stops in front of it). -/
def notAddSubHead : List Tok → Bool
  | [] => true
  | Tok.add :: _ => false
  | Tok.sub :: _ => false
  | _ :: _ => true

/-- The continuation token sequence does not begin with `*` or `/`
(so a multiplicative loop correctly stops in front of it). -/
def notMulDivHead : List Tok → Bool
  | [] => true
  | Tok.mul :: _ => false
  | Tok.div :: _ => false
  | _ :: _ => true

/-- The token type the scanner assigns to a specification token. -/
def tokTy : Tok → TokenType
  | Tok.num _ => TokenType.NUMBER
  | Tok.add => TokenType.ADD
  | Tok.sub => TokenType.SUB
  | Tok.mul => TokenType.MUL
  | Tok.div => TokenType.DIV
  | Tok.lp => TokenType.LEFTPAREN
  | Tok.rp => TokenType.RIGHTPAREN

/-- The number value held after scanning a specification token, given
the previously held value `v` (only a number token overwrites it). -/
def tokVal : Tok → Int → Int
  | Tok.num n, _ => (n : Int)
  | _, v => v

/-- Scanning one token of `src` starting from raw position `i`, with
previously held number value `v` and debug flag `d`.  Because
`get_token` never reads the current token field, every in-parse call of
`get_token` equals a `scanSt`. -/
def scanSt (src : List Char) (i : Nat) (v : Int) (d : Bool) :
    Except CalcError Calculator :=
  get_token { src_chars := src, current_index := i,
              current_token := TokenType.UNKNOWN, number_val := v,
              debug_mode := d }

/-! ## Basic facts about the scanner -/

theorem scanSt_def (src : List Char) (i : Nat) (v : Int) (d : Bool) :
    scanSt src i v d =
      gtAux { src_chars := src, current_index := i,
              current_token := TokenType.UNKNOWN, number_val := v,
              debug_mode := d } (i + wsCount (src.drop i)) := rfl

/-- `gtAux` reads neither the current index nor the current token of its
state argument: both are overwritten on every path. -/
theorem gtAux_congr (s : List Char) (i i' : Nat) (t t' : TokenType)
    (v : Int) (d : Bool) (j : Nat) :
    gtAux { src_chars := s, current_index := i, current_token := t,
            number_val := v, debug_mode := d } j =
    gtAux { src_chars := s, current_index := i', current_token := t',
            number_val := v, debug_mode := d } j := rfl

/-- `get_token` never reads the current token field, so any in-parse
scan equals a `scanSt` at the current raw position. -/
theorem get_token_eq_scanSt (c : Calculator) :
    get_token c =
      scanSt c.src_chars c.current_index c.number_val c.debug_mode := by
  cases c
  rfl

theorem getElem?_of_drop_cons {src : List Char} {i : Nat} {ch : Char}
    {s : List Char} (h : src.drop i = ch :: s) : src[i]? = some ch := by
  rw [← List.head?_drop, h, List.head?_cons]

theorem drop_succ_of_drop_cons {src : List Char} {i : Nat} {ch : Char}
    {s : List Char} (h : src.drop i = ch :: s) : src.drop (i + 1) = s := by
  rw [← List.tail_drop, h, List.tail_cons]

theorem lt_length_of_drop_cons {src : List Char} {i : Nat} {ch : Char}
    {s : List Char} (h : src.drop i = ch :: s) : i < src.length := by
  by_contra hcon
  rw [List.drop_eq_nil_of_le (Nat.le_of_not_lt hcon)] at h
  exact List.noConfusion h

/-- Operator characters are not whitespace. -/
theorem opChar_not_ws {t : Tok} {ch : Char} (h : opChar t = some ch) :
    rustIsWhitespace ch = false := by
  cases t <;> simp [opChar] at h <;> subst h <;> decide

/-- Digits are not whitespace. -/
theorem digit_not_ws {ch : Char} (h : rustIsDigit ch = true) :
    rustIsWhitespace ch = false := by
  by_contra hcon
  have hws : rustIsWhitespace ch = true := by
    cases hx : rustIsWhitespace ch
    · exact absurd hx hcon
    · rfl
  unfold rustIsWhitespace at hws
  simp only [Bool.or_eq_true, decide_eq_true_eq] at hws
  rcases hws with ((((((((((((((((((((((((rfl | rfl) | rfl) | rfl) | rfl) |
    rfl) | rfl) | rfl) | rfl) | rfl) | rfl) | rfl) | rfl) | rfl) | rfl) |
    rfl) | rfl) | rfl) | rfl) | rfl) | rfl) | rfl) | rfl) | rfl) | rfl) <;>
    exact absurd h (by decide)

theorem wsCount_cons_of_ws {ch : Char} {s : List Char}
    (h : rustIsWhitespace ch = true) :
    wsCount (ch :: s) = wsCount s + 1 := by
  simp [wsCount, h]

theorem wsCount_cons_of_not_ws {ch : Char} {s : List Char}
    (h : rustIsWhitespace ch = false) : wsCount (ch :: s) = 0 := by
  simp [wsCount, h]

/-- The maximal-digit-run length of a rendered number: the scan stops
exactly at the separator. -/
theorem digCount_append {ds s : List Char}
    (hds : ∀ c ∈ ds, rustIsDigit c = true) (hsep : digStart s = false) :
    digCount (ds ++ s) = ds.length := by
  induction ds with
  | nil =>
      simp only [List.nil_append, List.length_nil]
      cases s with
      | nil => rfl
      | cons c s' =>
          simp only [digStart] at hsep
          simp [digCount, hsep]
  | cons c cs ih =>
      have hc : rustIsDigit c = true := hds c (List.mem_cons_self c cs)
      have ih' := ih (fun x hx => hds x (List.mem_cons_of_mem c hx))
      simp [digCount, hc, ih']

/-- The digit-accumulation loop computes the base-10 value of the
rendered run: `value = value*10 + digit` folded over the run equals the
positional reading of the run. -/
theorem digAccum_append {ds s : List Char} (a : Int)
    (hds : ∀ c ∈ ds, rustIsDigit c = true) (hsep : digStart s = false) :
    digAccum (ds ++ s) a = a * 10 ^ ds.length + (decVal ds : Int) := by
  induction ds generalizing a with
  | nil =>
      simp only [List.nil_append, List.length_nil, pow_zero, mul_one,
        decVal, Nat.cast_zero, add_zero]
      cases s with
      | nil => rfl
      | cons c s' =>
          simp only [digStart] at hsep
          simp [digAccum, hsep]
  | cons c cs ih =>
      have hc : rustIsDigit c = true := hds c (List.mem_cons_self c cs)
      have ih' := ih (a * 10 + rustToDigit c)
        (fun x hx => hds x (List.mem_cons_of_mem c hx))
      simp only [rustToDigit] at ih'
      simp only [List.cons_append, digAccum, hc, if_true,
        List.length_cons, decVal, rustToDigit, List.append_eq]
      rw [ih']
      push_cast
      ring

/-- Skipping one whitespace character commutes with the whitespace
count: the post-skip index is unchanged. -/
theorem wsSkip_shift {src : List Char} {i : Nat} {ch : Char}
    {s : List Char} (h : src.drop i = ch :: s)
    (hws : rustIsWhitespace ch = true) :
    i + wsCount (src.drop i) = (i + 1) + wsCount (src.drop (i + 1)) := by
  rw [h, wsCount_cons_of_ws hws, drop_succ_of_drop_cons h]
  omega

/-- `scanSt` is unchanged by skipping a leading whitespace character. -/
theorem scanSt_ws_step {src : List Char} {i : Nat} {ch : Char}
    {s : List Char} (h : src.drop i = ch :: s)
    (hws : rustIsWhitespace ch = true) (v : Int) (d : Bool) :
    scanSt src i v d = scanSt src (i + 1) v d := by
  rw [scanSt_def, scanSt_def, wsSkip_shift h hws]
  exact gtAux_congr src i (i + 1) TokenType.UNKNOWN TokenType.UNKNOWN v d _

/-- Only the empty token sequence renders as the empty character
sequence. -/
theorem renders_tok_nil {ts : List Tok} {s : List Char}
    (h : Renders ts s) (hs : s = []) : ts = [] := by
  induction h with
  | nil => rfl
  | ws ch hws h ih => exact absurd hs (by simp)
  | op t ch hop h ih => exact absurd hs (by simp)
  | num ds hne hds hsep h ih =>
      rw [List.append_eq_nil] at hs
      exact absurd hs.1 hne

/-- Scanning at the start of a rendered nonempty token sequence yields
exactly its first token (with the number value overwritten only for a
number token) and lands on a rendering of the remaining tokens. -/
theorem rendersScanConsAux :
    ∀ (n : Nat) (src : List Char) (i : Nat), src.length - i ≤ n →
    ∀ (t : Tok) (ts : List Tok) (v : Int) (d : Bool),
      Renders (t :: ts) (src.drop i) →
      ∃ j, scanSt src i v d =
          Except.ok { src_chars := src, current_index := j,
                      current_token := tokTy t, number_val := tokVal t v,
                      debug_mode := d } ∧
        Renders ts (src.drop j) ∧ i ≤ j := by
  intro n
  induction n with
  | zero =>
      intro src i hle t ts v d h
      rw [List.drop_eq_nil_of_le (by omega)] at h
      exact absurd (renders_tok_nil h rfl) (by simp)
  | succ n ih =>
      intro src i hle t ts v d h
      generalize hs : src.drop i = s at h
      cases h with
      | @ws ts0 s ch hws h' =>
          have hdrop := drop_succ_of_drop_cons hs
          have hlt := lt_length_of_drop_cons hs
          obtain ⟨j, hscan, hren, hij⟩ :=
            ih src (i + 1) (by omega) t ts v d (by rw [hdrop]; exact h')
          exact ⟨j, by rw [scanSt_ws_step hs hws]; exact hscan, hren, by omega⟩
      | @op ts0 s t0 ch hop h' =>
          have h0 := getElem?_of_drop_cons hs
          have hlt := lt_length_of_drop_cons hs
          have hnws : rustIsWhitespace ch = false := opChar_not_ws hop
          have hdrop := drop_succ_of_drop_cons hs
          refine ⟨i + 1, ?_, by rw [hdrop]; exact h', by omega⟩
          rw [scanSt_def, hs, wsCount_cons_of_not_ws hnws, Nat.add_zero]
          cases t
          case num x => simp [opChar] at hop
          all_goals
            simp only [opChar, Option.some.injEq] at hop
          all_goals
            subst hop
          all_goals
            simp [gtAux, Nat.not_le.mpr hlt, h0, tokTy, tokVal]
      | @num ts0 s ds hne hds hsep h' =>
          obtain ⟨d0, ds', rfl⟩ : ∃ d0 ds', ds = d0 :: ds' := by
            cases ds with
            | nil => exact absurd rfl hne
            | cons a as => exact ⟨a, as, rfl⟩
          have hd0 : rustIsDigit d0 = true := hds d0 (List.mem_cons_self d0 ds')
          have hs' : src.drop i = d0 :: (ds' ++ s) := by
            rw [hs]; rfl
          have h0 := getElem?_of_drop_cons hs'
          have hlt := lt_length_of_drop_cons hs'
          have hnws : rustIsWhitespace d0 = false := digit_not_ws hd0
          have hcnt : digCount (src.drop i) = (d0 :: ds').length := by
            rw [hs]; exact digCount_append hds hsep
          have hacc : digAccum (src.drop i) 0 = (decVal (d0 :: ds') : Int) := by
            rw [hs, digAccum_append 0 hds hsep, zero_mul, zero_add]
          have hdj : src.drop (i + (d0 :: ds').length) = s := by
            rw [← List.drop_drop, hs, List.drop_left]
          have hne1 : d0 ≠ '+' := by rintro rfl; exact absurd hd0 (by decide)
          have hne2 : d0 ≠ '-' := by rintro rfl; exact absurd hd0 (by decide)
          have hne3 : d0 ≠ '*' := by rintro rfl; exact absurd hd0 (by decide)
          have hne4 : d0 ≠ '/' := by rintro rfl; exact absurd hd0 (by decide)
          have hne5 : d0 ≠ '(' := by rintro rfl; exact absurd hd0 (by decide)
          have hne6 : d0 ≠ ')' := by rintro rfl; exact absurd hd0 (by decide)
          refine ⟨i + (d0 :: ds').length, ?_, by rw [hdj]; exact h', by omega⟩
          rw [scanSt_def, hs', wsCount_cons_of_not_ws hnws, Nat.add_zero]
          simp [gtAux, Nat.not_le.mpr hlt, h0, hne1, hne2, hne3, hne4, hne5,
            hne6, hd0, hcnt, hacc, tokTy, tokVal]

/-- Scanning at a rendering of the empty token sequence (trailing
whitespace only) yields the `End` token with the index at or past the
end of the input and the number value unchanged. -/
theorem rendersScanNilAux :
    ∀ (n : Nat) (src : List Char) (i : Nat), src.length - i ≤ n →
    ∀ (v : Int) (d : Bool), Renders [] (src.drop i) →
      ∃ j, scanSt src i v d =
          Except.ok { src_chars := src, current_index := j,
                      current_token := TokenType.END, number_val := v,
                      debug_mode := d } ∧
        i ≤ j ∧ src.length ≤ j := by
  intro n
  induction n with
  | zero =>
      intro src i hle v d _
      have hnil : src.drop i = [] := List.drop_eq_nil_of_le (by omega)
      refine ⟨i, ?_, Nat.le_refl i, by omega⟩
      rw [scanSt_def, hnil]
      simp [wsCount, gtAux, Nat.le_of_lt_succ, show src.length ≤ i by omega]
  | succ n ih =>
      intro src i hle v d h
      generalize hs : src.drop i = s at h
      cases h with
      | nil =>
          refine ⟨i, ?_, Nat.le_refl i, ?_⟩
          · rw [scanSt_def, hs]
            simp [wsCount, gtAux,
              show src.length ≤ i from (List.drop_eq_nil_iff).mp hs]
          · exact (List.drop_eq_nil_iff).mp hs
      | ws ch hws h' =>
          have hdrop := drop_succ_of_drop_cons hs
          have hlt := lt_length_of_drop_cons hs
          obtain ⟨j, hscan, hij, hlen⟩ :=
            ih src (i + 1) (by omega) v d (by rw [hdrop]; exact h')
          exact ⟨j, by rw [scanSt_ws_step hs hws]; exact hscan, by omega, hlen⟩

/-- Wrapper for `rendersScanConsAux` with the bound instantiated. -/
theorem rendersScanCons {src : List Char} {i : Nat} {t : Tok}
    {ts : List Tok} (h : Renders (t :: ts) (src.drop i)) (v : Int)
    (d : Bool) :
    ∃ j, scanSt src i v d =
        Except.ok { src_chars := src, current_index := j,
                    current_token := tokTy t, number_val := tokVal t v,
                    debug_mode := d } ∧
      Renders ts (src.drop j) ∧ i ≤ j :=
  rendersScanConsAux src.length src i (by omega) t ts v d h

/-- Wrapper for `rendersScanNilAux` with the bound instantiated. -/
theorem rendersScanNil {src : List Char} {i : Nat}
    (h : Renders [] (src.drop i)) (v : Int) (d : Bool) :
    ∃ j, scanSt src i v d =
        Except.ok { src_chars := src, current_index := j,
                    current_token := TokenType.END, number_val := v,
                    debug_mode := d } ∧
      i ≤ j ∧ src.length ≤ j :=
  rendersScanNilAux src.length src i (by omega) v d h

/-! ## Refinement: the evaluator computes the specification value -/

theorem calcBindOk {α β : Type} (a : α) (f : α → Except CalcError β) :
    (Except.ok a >>= f) = f a := rfl

theorem calcBindErr {α β : Type} (e : CalcError)
    (f : α → Except CalcError β) :
    ((Except.error e : Except CalcError α) >>= f) = Except.error e := rfl

/-- Scanning anywhere inside a rendered token sequence succeeds. -/
theorem rendersScanAny {src : List Char} {i : Nat} {ts : List Tok}
    (h : Renders ts (src.drop i)) (v : Int) (d : Bool) :
    ∃ c', scanSt src i v d = Except.ok c' := by
  cases ts with
  | nil =>
      obtain ⟨j, hs, _, _⟩ := rendersScanNil h v d
      exact ⟨_, hs⟩
  | cons t ts' =>
      obtain ⟨j, hs, _, _⟩ := rendersScanCons h v d
      exact ⟨_, hs⟩

theorem tokTy_not_addsub {t : Tok} {ts : List Tok}
    (h : notAddSubHead (t :: ts) = true) :
    tokTy t ≠ TokenType.ADD ∧ tokTy t ≠ TokenType.SUB := by
  cases t <;> simp_all [notAddSubHead, tokTy]

theorem tokTy_not_muldiv {t : Tok} {ts : List Tok}
    (h : notMulDivHead (t :: ts) = true) :
    tokTy t ≠ TokenType.MUL ∧ tokTy t ≠ TokenType.DIV := by
  cases t <;> simp_all [notMulDivHead, tokTy]

/-- The current token of the state produced by scanning a rendering of
`ts` is neither `+` nor `-` when `ts` does not begin with one of them
(and similarly it is `End` when `ts` is empty). -/
theorem scanned_not_addsub {src : List Char} {i : Nat} {ts : List Tok}
    {v : Int} {d : Bool} {c : Calculator}
    (hren : Renders ts (src.drop i)) (hc : scanSt src i v d = Except.ok c)
    (hhead : notAddSubHead ts = true) :
    ¬(c.current_token = TokenType.ADD ∨ c.current_token = TokenType.SUB) := by
  cases ts with
  | nil =>
      obtain ⟨j, hs, _, _⟩ := rendersScanNil hren v d
      rw [hs] at hc
      injection hc with hc
      subst hc
      simp
  | cons t ts' =>
      obtain ⟨j, hs, _, _⟩ := rendersScanCons hren v d
      rw [hs] at hc
      injection hc with hc
      subst hc
      obtain ⟨h1, h2⟩ := tokTy_not_addsub hhead
      simp [h1, h2]

/-- As `scanned_not_addsub`, for `*` and `/`. -/
theorem scanned_not_muldiv {src : List Char} {i : Nat} {ts : List Tok}
    {v : Int} {d : Bool} {c : Calculator}
    (hren : Renders ts (src.drop i)) (hc : scanSt src i v d = Except.ok c)
    (hhead : notMulDivHead ts = true) :
    ¬(c.current_token = TokenType.MUL ∨ c.current_token = TokenType.DIV) := by
  cases ts with
  | nil =>
      obtain ⟨j, hs, _, _⟩ := rendersScanNil hren v d
      rw [hs] at hc
      injection hc with hc
      subst hc
      simp
  | cons t ts' =>
      obtain ⟨j, hs, _, _⟩ := rendersScanCons hren v d
      rw [hs] at hc
      injection hc with hc
      subst hc
      obtain ⟨h1, h2⟩ := tokTy_not_muldiv hhead
      simp [h1, h2]

/-- The outcome a grammar procedure must produce when the remaining
input renders `ts` after the phrase it parses: on specification value
`some r` it returns `r` with the cursor scanned one token past the
phrase; on `none` (division by zero) it fails with the
division-by-zero error. -/
def EvalOutcome (res : Option Int) (out : Except CalcError (Int × Calculator))
    (src : List Char) (d : Bool) (ts : List Tok) : Prop :=
  match res with
  | some r => ∃ j v' c', out = Except.ok (r, c') ∧
      scanSt src j v' d = Except.ok c' ∧ Renders ts (src.drop j)
  | none => out = Except.error CalcError.divByZero

/-- `get_token` on an explicit state equals a raw scan at its index:
the current token field is never read. -/
theorem get_token_mk (src : List Char) (i : Nat) (t : TokenType) (v : Int)
    (d : Bool) :
    get_token { src_chars := src, current_index := i, current_token := t,
                number_val := v, debug_mode := d } = scanSt src i v d := rfl

mutual

/-- Master refinement lemma, primary level: with the input rendering
`toksP p` followed by `ts`, `eval_primary_expr` produces the
specification outcome of `p`. -/
theorem evalP_ok (p : PExpr) : ∀ (ts : List Tok) (src : List Char) (d : Bool),
    ∃ N, ∀ (i : Nat) (v : Int), Renders (toksP p ++ ts) (src.drop i) →
      ∀ fuel, N ≤ fuel → ∀ c, scanSt src i v d = Except.ok c →
        EvalOutcome (valP p) (eval_primary_expr fuel c) src d ts := by
  cases p with
  | num n =>
      intro ts src d
      refine ⟨1, ?_⟩
      intro i v hren fuel hfuel c hc
      obtain ⟨fuel', rfl⟩ : ∃ k, fuel = k + 1 := ⟨fuel - 1, by omega⟩
      rw [show toksP (PExpr.num n) ++ ts = Tok.num n :: ts from rfl] at hren
      obtain ⟨j, hscan, hren', hij⟩ := rendersScanCons hren v d
      simp only [tokTy, tokVal] at hscan
      rw [hscan] at hc
      injection hc with hc
      subst hc
      obtain ⟨c₁, hc₁⟩ := rendersScanAny hren' ((n : Nat) : Int) d
      simp only [valP, EvalOutcome]
      refine ⟨j, ((n : Nat) : Int), c₁, ?_, hc₁, hren'⟩
      simp only [eval_primary_expr]
      rw [get_token_mk, hc₁]
      rfl
  | paren a =>
      intro ts src d
      obtain ⟨N_A, hA⟩ := evalA_ok a (Tok.rp :: ts) src d rfl rfl
      refine ⟨N_A + 2, ?_⟩
      intro i v hren fuel hfuel c hc
      obtain ⟨fuel', rfl⟩ : ∃ k, fuel = k + 1 := ⟨fuel - 1, by omega⟩
      obtain ⟨fuel'', rfl⟩ : ∃ k, fuel' = k + 1 := ⟨fuel' - 1, by omega⟩
      have htoks : toksP (PExpr.paren a) ++ ts =
          Tok.lp :: (toksA a ++ (Tok.rp :: ts)) := by
        simp [toksP, List.append_assoc]
      rw [htoks] at hren
      obtain ⟨j₁, hscan, hren1, _⟩ := rendersScanCons hren v d
      simp only [tokTy, tokVal] at hscan
      rw [hscan] at hc
      injection hc with hc
      subst hc
      obtain ⟨c₁, hc₁⟩ := rendersScanAny hren1 v d
      have hstep := hA j₁ v hren1 fuel'' (by omega) c₁ hc₁
      cases hval : valA a with
      | some r =>
          rw [hval] at hstep
          simp only [EvalOutcome] at hstep
          obtain ⟨j₂, v₂, c₂, hev, hsc₂, hren₂⟩ := hstep
          obtain ⟨j₃, hscan₃, hren₃, _⟩ := rendersScanCons hren₂ v₂ d
          simp only [tokTy, tokVal] at hscan₃
          rw [hscan₃] at hsc₂
          injection hsc₂ with hsc₂
          subst hsc₂
          obtain ⟨c₃, hc₃⟩ := rendersScanAny hren₃ v₂ d
          rw [show valP (PExpr.paren a) = some r by simp [valP, hval]]
          simp only [EvalOutcome]
          refine ⟨j₃, v₂, c₃, ?_, hc₃, hren₃⟩
          simp only [eval_primary_expr]
          rw [get_token_mk, hc₁, calcBindOk]
          simp only [eval_expr]
          rw [hev, calcBindOk]
          simp [get_token_mk, hc₃, calcBindOk]
      | none =>
          rw [hval] at hstep
          simp only [EvalOutcome] at hstep
          rw [show valP (PExpr.paren a) = none by simp [valP, hval]]
          simp only [EvalOutcome]
          simp only [eval_primary_expr]
          rw [get_token_mk, hc₁, calcBindOk]
          simp only [eval_expr]
          rw [hstep]
          rfl

/-- Master refinement lemma, additive level. -/
theorem evalA_ok (a : AExpr) : ∀ (ts : List Tok) (src : List Char) (d : Bool),
    notAddSubHead ts = true → notMulDivHead ts = true →
    ∃ N, ∀ (i : Nat) (v : Int), Renders (toksA a ++ ts) (src.drop i) →
      ∀ fuel, N ≤ fuel → ∀ c, scanSt src i v d = Except.ok c →
        EvalOutcome (valA a) (eval_add_sub_expr fuel c) src d ts := by
  cases a with
  | mk m tl =>
      intro ts src d h₁ h₂
      have hmd : notMulDivHead (toksATail tl ++ ts) = true := by
        cases tl with
        | nil => simpa [toksATail] using h₂
        | consAdd m' t' => rfl
        | consSub m' t' => rfl
      obtain ⟨N_M, hM⟩ := evalM_ok m (toksATail tl ++ ts) src d hmd
      obtain ⟨N_T, hT⟩ := evalAT_ok tl ts src d h₁ h₂
      refine ⟨N_M + N_T + 1, ?_⟩
      intro i v hren fuel hfuel c hc
      obtain ⟨fuel', rfl⟩ : ∃ k, fuel = k + 1 := ⟨fuel - 1, by omega⟩
      have hren' : Renders (toksM m ++ (toksATail tl ++ ts)) (src.drop i) := by
        simpa [toksA, List.append_assoc] using hren
      have hstep := hM i v hren' fuel' (by omega) c hc
      cases hval : valM m with
      | some w =>
          rw [hval] at hstep
          simp only [EvalOutcome] at hstep
          obtain ⟨j₂, v₂, c₂, hev, hsc₂, hren₂⟩ := hstep
          have htail := hT j₂ v₂ hren₂ fuel' (by omega) c₂ hsc₂ w
          rw [show valA (AExpr.mk m tl) = valATail w tl by simp [valA, hval]]
          rw [show eval_add_sub_expr (fuel' + 1) c = addSubLoop fuel' w c₂ by
            simp only [eval_add_sub_expr]
            rw [hev, calcBindOk]]
          exact htail
      | none =>
          rw [hval] at hstep
          simp only [EvalOutcome] at hstep
          rw [show valA (AExpr.mk m tl) = none by simp [valA, hval]]
          simp only [EvalOutcome, eval_add_sub_expr]
          rw [hstep]
          rfl

/-- Master refinement lemma, additive loop. -/
theorem evalAT_ok (tl : ATail) : ∀ (ts : List Tok) (src : List Char) (d : Bool),
    notAddSubHead ts = true → notMulDivHead ts = true →
    ∃ N, ∀ (i : Nat) (v : Int), Renders (toksATail tl ++ ts) (src.drop i) →
      ∀ fuel, N ≤ fuel → ∀ c, scanSt src i v d = Except.ok c →
        ∀ r₀, EvalOutcome (valATail r₀ tl) (addSubLoop fuel r₀ c) src d ts := by
  cases tl with
  | nil =>
      intro ts src d h₁ h₂
      refine ⟨1, ?_⟩
      intro i v hren fuel hfuel c hc r₀
      obtain ⟨fuel', rfl⟩ : ∃ k, fuel = k + 1 := ⟨fuel - 1, by omega⟩
      simp only [toksATail, List.nil_append] at hren
      have hnot := scanned_not_addsub hren hc h₁
      simp only [valATail, EvalOutcome]
      refine ⟨i, v, c, ?_, hc, hren⟩
      simp only [addSubLoop]
      rw [if_neg hnot]
  | consAdd m tl' =>
      intro ts src d h₁ h₂
      have hmd : notMulDivHead (toksATail tl' ++ ts) = true := by
        cases tl' with
        | nil => simpa [toksATail] using h₂
        | consAdd m' t' => rfl
        | consSub m' t' => rfl
      obtain ⟨N_M, hM⟩ := evalM_ok m (toksATail tl' ++ ts) src d hmd
      obtain ⟨N_T, hT⟩ := evalAT_ok tl' ts src d h₁ h₂
      refine ⟨N_M + N_T + 1, ?_⟩
      intro i v hren fuel hfuel c hc r₀
      obtain ⟨fuel', rfl⟩ : ∃ k, fuel = k + 1 := ⟨fuel - 1, by omega⟩
      have hren0 : Renders (Tok.add :: (toksM m ++ (toksATail tl' ++ ts)))
          (src.drop i) := by
        simpa [toksATail, List.append_assoc] using hren
      obtain ⟨j₁, hscan, hren1, _⟩ := rendersScanCons hren0 v d
      simp only [tokTy, tokVal] at hscan
      rw [hscan] at hc
      injection hc with hc
      subst hc
      obtain ⟨c₁, hc₁⟩ := rendersScanAny hren1 v d
      have hstep := hM j₁ v hren1 fuel' (by omega) c₁ hc₁
      cases hval : valM m with
      | some w =>
          rw [hval] at hstep
          simp only [EvalOutcome] at hstep
          obtain ⟨j₂, v₂, c₂, hev, hsc₂, hren₂⟩ := hstep
          have htail := hT j₂ v₂ hren₂ fuel' (by omega) c₂ hsc₂ (r₀ + w)
          rw [show valATail r₀ (ATail.consAdd m tl') = valATail (r₀ + w) tl'
            by simp [valATail, hval]]
          rw [show addSubLoop (fuel' + 1) r₀
              ({ src_chars := src, current_index := j₁,
                 current_token := TokenType.ADD, number_val := v,
                 debug_mode := d } : Calculator) =
              addSubLoop fuel' (r₀ + w) c₂ by
            simp [addSubLoop, get_token_mk, hc₁, hev, calcBindOk]]
          exact htail
      | none =>
          rw [hval] at hstep
          simp only [EvalOutcome] at hstep
          rw [show valATail r₀ (ATail.consAdd m tl') = none
            by simp [valATail, hval]]
          simp only [EvalOutcome]
          simp [addSubLoop, get_token_mk, hc₁, hstep, calcBindOk, calcBindErr]
  | consSub m tl' =>
      intro ts src d h₁ h₂
      have hmd : notMulDivHead (toksATail tl' ++ ts) = true := by
        cases tl' with
        | nil => simpa [toksATail] using h₂
        | consAdd m' t' => rfl
        | consSub m' t' => rfl
      obtain ⟨N_M, hM⟩ := evalM_ok m (toksATail tl' ++ ts) src d hmd
      obtain ⟨N_T, hT⟩ := evalAT_ok tl' ts src d h₁ h₂
      refine ⟨N_M + N_T + 1, ?_⟩
      intro i v hren fuel hfuel c hc r₀
      obtain ⟨fuel', rfl⟩ : ∃ k, fuel = k + 1 := ⟨fuel - 1, by omega⟩
      have hren0 : Renders (Tok.sub :: (toksM m ++ (toksATail tl' ++ ts)))
          (src.drop i) := by
        simpa [toksATail, List.append_assoc] using hren
      obtain ⟨j₁, hscan, hren1, _⟩ := rendersScanCons hren0 v d
      simp only [tokTy, tokVal] at hscan
      rw [hscan] at hc
      injection hc with hc
      subst hc
      obtain ⟨c₁, hc₁⟩ := rendersScanAny hren1 v d
      have hstep := hM j₁ v hren1 fuel' (by omega) c₁ hc₁
      cases hval : valM m with
      | some w =>
          rw [hval] at hstep
          simp only [EvalOutcome] at hstep
          obtain ⟨j₂, v₂, c₂, hev, hsc₂, hren₂⟩ := hstep
          have htail := hT j₂ v₂ hren₂ fuel' (by omega) c₂ hsc₂ (r₀ - w)
          rw [show valATail r₀ (ATail.consSub m tl') = valATail (r₀ - w) tl'
            by simp [valATail, hval]]
          rw [show addSubLoop (fuel' + 1) r₀
              ({ src_chars := src, current_index := j₁,
                 current_token := TokenType.SUB, number_val := v,
                 debug_mode := d } : Calculator) =
              addSubLoop fuel' (r₀ - w) c₂ by
            simp [addSubLoop, get_token_mk, hc₁, hev, calcBindOk]]
          exact htail
      | none =>
          rw [hval] at hstep
          simp only [EvalOutcome] at hstep
          rw [show valATail r₀ (ATail.consSub m tl') = none
            by simp [valATail, hval]]
          simp only [EvalOutcome]
          simp [addSubLoop, get_token_mk, hc₁, hstep, calcBindOk, calcBindErr]

/-- Master refinement lemma, multiplicative level. -/
theorem evalM_ok (m : MExpr) : ∀ (ts : List Tok) (src : List Char) (d : Bool),
    notMulDivHead ts = true →
    ∃ N, ∀ (i : Nat) (v : Int), Renders (toksM m ++ ts) (src.drop i) →
      ∀ fuel, N ≤ fuel → ∀ c, scanSt src i v d = Except.ok c →
        EvalOutcome (valM m) (eval_mul_div_expr fuel c) src d ts := by
  cases m with
  | mk p tl =>
      intro ts src d h₂
      obtain ⟨N_P, hP⟩ := evalP_ok p (toksMTail tl ++ ts) src d
      obtain ⟨N_T, hT⟩ := evalMT_ok tl ts src d h₂
      refine ⟨N_P + N_T + 1, ?_⟩
      intro i v hren fuel hfuel c hc
      obtain ⟨fuel', rfl⟩ : ∃ k, fuel = k + 1 := ⟨fuel - 1, by omega⟩
      have hren' : Renders (toksP p ++ (toksMTail tl ++ ts)) (src.drop i) := by
        simpa [toksM, List.append_assoc] using hren
      have hstep := hP i v hren' fuel' (by omega) c hc
      cases hval : valP p with
      | some w =>
          rw [hval] at hstep
          simp only [EvalOutcome] at hstep
          obtain ⟨j₂, v₂, c₂, hev, hsc₂, hren₂⟩ := hstep
          have htail := hT j₂ v₂ hren₂ fuel' (by omega) c₂ hsc₂ w
          rw [show valM (MExpr.mk p tl) = valMTail w tl by simp [valM, hval]]
          rw [show eval_mul_div_expr (fuel' + 1) c = mulDivLoop fuel' w c₂ by
            simp only [eval_mul_div_expr]
            rw [hev, calcBindOk]]
          exact htail
      | none =>
          rw [hval] at hstep
          simp only [EvalOutcome] at hstep
          rw [show valM (MExpr.mk p tl) = none by simp [valM, hval]]
          simp only [EvalOutcome, eval_mul_div_expr]
          rw [hstep]
          rfl

/-- Master refinement lemma, multiplicative loop. -/
theorem evalMT_ok (tl : MTail) : ∀ (ts : List Tok) (src : List Char) (d : Bool),
    notMulDivHead ts = true →
    ∃ N, ∀ (i : Nat) (v : Int), Renders (toksMTail tl ++ ts) (src.drop i) →
      ∀ fuel, N ≤ fuel → ∀ c, scanSt src i v d = Except.ok c →
        ∀ r₀, EvalOutcome (valMTail r₀ tl) (mulDivLoop fuel r₀ c) src d ts := by
  cases tl with
  | nil =>
      intro ts src d h₂
      refine ⟨1, ?_⟩
      intro i v hren fuel hfuel c hc r₀
      obtain ⟨fuel', rfl⟩ : ∃ k, fuel = k + 1 := ⟨fuel - 1, by omega⟩
      simp only [toksMTail, List.nil_append] at hren
      have hnot := scanned_not_muldiv hren hc h₂
      simp only [valMTail, EvalOutcome]
      refine ⟨i, v, c, ?_, hc, hren⟩
      simp only [mulDivLoop]
      rw [if_neg hnot]
  | consMul p tl' =>
      intro ts src d h₂
      obtain ⟨N_P, hP⟩ := evalP_ok p (toksMTail tl' ++ ts) src d
      obtain ⟨N_T, hT⟩ := evalMT_ok tl' ts src d h₂
      refine ⟨N_P + N_T + 1, ?_⟩
      intro i v hren fuel hfuel c hc r₀
      obtain ⟨fuel', rfl⟩ : ∃ k, fuel = k + 1 := ⟨fuel - 1, by omega⟩
      have hren0 : Renders (Tok.mul :: (toksP p ++ (toksMTail tl' ++ ts)))
          (src.drop i) := by
        simpa [toksMTail, List.append_assoc] using hren
      obtain ⟨j₁, hscan, hren1, _⟩ := rendersScanCons hren0 v d
      simp only [tokTy, tokVal] at hscan
      rw [hscan] at hc
      injection hc with hc
      subst hc
      obtain ⟨c₁, hc₁⟩ := rendersScanAny hren1 v d
      have hstep := hP j₁ v hren1 fuel' (by omega) c₁ hc₁
      cases hval : valP p with
      | some w =>
          rw [hval] at hstep
          simp only [EvalOutcome] at hstep
          obtain ⟨j₂, v₂, c₂, hev, hsc₂, hren₂⟩ := hstep
          have htail := hT j₂ v₂ hren₂ fuel' (by omega) c₂ hsc₂ (r₀ * w)
          rw [show valMTail r₀ (MTail.consMul p tl') = valMTail (r₀ * w) tl'
            by simp [valMTail, hval]]
          rw [show mulDivLoop (fuel' + 1) r₀
              ({ src_chars := src, current_index := j₁,
                 current_token := TokenType.MUL, number_val := v,
                 debug_mode := d } : Calculator) =
              mulDivLoop fuel' (r₀ * w) c₂ by
            simp [mulDivLoop, get_token_mk, hc₁, hev, calcBindOk]]
          exact htail
      | none =>
          rw [hval] at hstep
          simp only [EvalOutcome] at hstep
          rw [show valMTail r₀ (MTail.consMul p tl') = none
            by simp [valMTail, hval]]
          simp only [EvalOutcome]
          simp [mulDivLoop, get_token_mk, hc₁, hstep, calcBindOk, calcBindErr]
  | consDiv p tl' =>
      intro ts src d h₂
      obtain ⟨N_P, hP⟩ := evalP_ok p (toksMTail tl' ++ ts) src d
      obtain ⟨N_T, hT⟩ := evalMT_ok tl' ts src d h₂
      refine ⟨N_P + N_T + 1, ?_⟩
      intro i v hren fuel hfuel c hc r₀
      obtain ⟨fuel', rfl⟩ : ∃ k, fuel = k + 1 := ⟨fuel - 1, by omega⟩
      have hren0 : Renders (Tok.div :: (toksP p ++ (toksMTail tl' ++ ts)))
          (src.drop i) := by
        simpa [toksMTail, List.append_assoc] using hren
      obtain ⟨j₁, hscan, hren1, _⟩ := rendersScanCons hren0 v d
      simp only [tokTy, tokVal] at hscan
      rw [hscan] at hc
      injection hc with hc
      subst hc
      obtain ⟨c₁, hc₁⟩ := rendersScanAny hren1 v d
      have hstep := hP j₁ v hren1 fuel' (by omega) c₁ hc₁
      cases hval : valP p with
      | some w =>
          rw [hval] at hstep
          simp only [EvalOutcome] at hstep
          obtain ⟨j₂, v₂, c₂, hev, hsc₂, hren₂⟩ := hstep
          by_cases hw : w = 0
          · subst hw
            rw [show valMTail r₀ (MTail.consDiv p tl') = none
              by simp [valMTail, hval]]
            simp only [EvalOutcome]
            simp [mulDivLoop, get_token_mk, hc₁, hev, calcBindOk]
          · have htail := hT j₂ v₂ hren₂ fuel' (by omega) c₂ hsc₂
              (Int.tdiv r₀ w)
            rw [show valMTail r₀ (MTail.consDiv p tl') =
                valMTail (Int.tdiv r₀ w) tl'
              by simp [valMTail, hval, hw]]
            rw [show mulDivLoop (fuel' + 1) r₀
                ({ src_chars := src, current_index := j₁,
                   current_token := TokenType.DIV, number_val := v,
                   debug_mode := d } : Calculator) =
                mulDivLoop fuel' (Int.tdiv r₀ w) c₂ by
              simp [mulDivLoop, get_token_mk, hc₁, hev, hw, calcBindOk]]
            exact htail
      | none =>
          rw [hval] at hstep
          simp only [EvalOutcome] at hstep
          rw [show valMTail r₀ (MTail.consDiv p tl') = none
            by simp [valMTail, hval]]
          simp only [EvalOutcome]
          simp [mulDivLoop, get_token_mk, hc₁, hstep, calcBindOk, calcBindErr]

end

/-- Top-level refinement: running the calculator on any rendering of an
expression yields the specification outcome (value, or the
division-by-zero error). -/
theorem runCalc_renders (e : AExpr) (src : List Char) (d : Bool)
    (hren : Renders (toksA e) src) :
    ∃ N, ∀ fuel, N ≤ fuel →
      runCalc fuel src d =
        (match valA e with
         | some r => Except.ok r
         | none => Except.error CalcError.divByZero) := by
  obtain ⟨N_A, hA⟩ := evalA_ok e [] src d rfl rfl
  refine ⟨N_A + 1, ?_⟩
  intro fuel hfuel
  obtain ⟨fuel', rfl⟩ : ∃ k, fuel = k + 1 := ⟨fuel - 1, by omega⟩
  have hren0 : Renders (toksA e ++ []) (src.drop 0) := by simpa using hren
  have hnew : get_token (Calculator.new src d) = scanSt src 0 0 d := rfl
  obtain ⟨c₁, hc₁⟩ := rendersScanAny hren0 0 d
  have hstep := hA 0 0 hren0 fuel' (by omega) c₁ hc₁
  cases hval : valA e with
  | some r =>
      rw [hval] at hstep
      simp only [EvalOutcome] at hstep
      obtain ⟨j₂, v₂, c₂, hev, hsc₂, hren₂⟩ := hstep
      obtain ⟨j₃, hscan₃, _, _⟩ := rendersScanNil hren₂ v₂ d
      rw [hscan₃] at hsc₂
      injection hsc₂ with hsc₂
      subst hsc₂
      simp only [runCalc]
      rw [hnew, hc₁, calcBindOk]
      simp only [eval_expr]
      rw [hev, calcBindOk]
      simp
  | none =>
      rw [hval] at hstep
      simp only [EvalOutcome] at hstep
      simp only [runCalc]
      rw [hnew, hc₁, calcBindOk]
      simp only [eval_expr]
      rw [hstep]
      rfl

/-- C1: for every syntactically valid expression over integer literals,
`+`, `-`, `*`, `/` and parentheses (any rendering of an expression of
the published grammar), the evaluator's result equals standard
precedence-respecting, left-to-right integer arithmetic with truncating
division (the specification fold `valA`); in particular `"1-2-3"`
yields `-4`, `"8/4/2"` yields `1`, `"2+3*4"` yields `14` and
`"(2+3)*4"` yields `20`. -/
theorem C1_eval_matches_spec_arithmetic :
    (∀ (e : AExpr) (s : List Char) (r : Int) (d : Bool),
        Renders (toksA e) s → valA e = some r →
        ∃ N, ∀ fuel, N ≤ fuel → runCalc fuel s d = Except.ok r) ∧
    runStr "1-2-3" = Except.ok (-4) ∧
    runStr "8/4/2" = Except.ok 1 ∧
    runStr "2+3*4" = Except.ok 14 ∧
    runStr "(2+3)*4" = Except.ok 20 := by
  refine ⟨?_, by decide, by decide, by decide, by decide⟩
  intro e s r d hren hval
  obtain ⟨N, hN⟩ := runCalc_renders e s d hren
  refine ⟨N, fun fuel hf => ?_⟩
  rw [hN fuel hf, hval]

/-- C2: whenever the right operand of a division evaluates to zero, the
evaluation terminates with the division-by-zero error and no result:
at the loop level the check precedes the division (the division is
never executed with a zero divisor), and a whole run on any rendering
of an expression whose specification value is `none` (first failure a
zero divisor) ends in the division-by-zero error, as on `"5/0"`. -/
theorem C2_division_by_zero_checked :
    (∀ (fuel : Nat) (r : Int) (c c₁ c₂ : Calculator),
        c.current_token = TokenType.DIV → get_token c = Except.ok c₁ →
        eval_primary_expr fuel c₁ = Except.ok (0, c₂) →
        mulDivLoop (fuel + 1) r c = Except.error CalcError.divByZero) ∧
    (∀ (e : AExpr) (s : List Char) (d : Bool),
        Renders (toksA e) s → valA e = none →
        ∃ N, ∀ fuel, N ≤ fuel →
          runCalc fuel s d = Except.error CalcError.divByZero) ∧
    runStr "5/0" = Except.error CalcError.divByZero := by
  refine ⟨?_, ?_, by decide⟩
  · intro fuel r c c₁ c₂ htok hget hp
    simp only [mulDivLoop]
    rw [if_pos (Or.inr htok), hget, calcBindOk, hp, calcBindOk, htok]
    simp
  · intro e s d hren hval
    obtain ⟨N, hN⟩ := runCalc_renders e s d hren
    refine ⟨N, fun fuel hf => ?_⟩
    rw [hN fuel hf, hval]

example :
    valA (AExpr.mk (MExpr.mk (PExpr.num 2) MTail.nil)
      (ATail.consAdd (MExpr.mk (PExpr.num 3)
        (MTail.consMul (PExpr.num 4) MTail.nil)) ATail.nil)) =
      some 14 := by decide

example :
    toksA (AExpr.mk (MExpr.mk (PExpr.num 2) MTail.nil)
      (ATail.consAdd (MExpr.mk (PExpr.num 3)
        (MTail.consMul (PExpr.num 4) MTail.nil)) ATail.nil)) =
      [Tok.num 2, Tok.add, Tok.num 3, Tok.mul, Tok.num 4] := by decide

example : Renders [Tok.num 2, Tok.add, Tok.num 3] ['2', '+', '3'] := by
  have h3 : Renders [] [] := Renders.nil
  have h2 : Renders [Tok.num 3] ['3'] :=
    Renders.num ['3'] (by decide) (by decide) (by decide) h3
  have h1 : Renders [Tok.add, Tok.num 3] ('+' :: ['3']) :=
    Renders.op Tok.add '+' rfl h2
  exact Renders.num ['2'] (by decide) (by decide) (by decide) h1

/-- Witness for C1 at the concrete expression `2+3*4`. -/
theorem C1_witness :
    ∃ N, ∀ fuel, N ≤ fuel →
      runCalc fuel ('2' :: '+' :: '3' :: '*' :: ['4']) true =
        Except.ok 14 := by
  have h5 : Renders [] [] := Renders.nil
  have h4 : Renders [Tok.num 4] ['4'] :=
    Renders.num ['4'] (by decide) (by decide) (by decide) h5
  have h3 : Renders [Tok.mul, Tok.num 4] ('*' :: ['4']) :=
    Renders.op Tok.mul '*' rfl h4
  have h2 : Renders [Tok.num 3, Tok.mul, Tok.num 4] ('3' :: '*' :: ['4']) :=
    Renders.num ['3'] (by decide) (by decide) (by decide) h3
  have h1 : Renders [Tok.add, Tok.num 3, Tok.mul, Tok.num 4]
      ('+' :: '3' :: '*' :: ['4']) :=
    Renders.op Tok.add '+' rfl h2
  have h0 : Renders [Tok.num 2, Tok.add, Tok.num 3, Tok.mul, Tok.num 4]
      ('2' :: '+' :: '3' :: '*' :: ['4']) :=
    Renders.num ['2'] (by decide) (by decide) (by decide) h1
  exact C1_eval_matches_spec_arithmetic.1
    (AExpr.mk (MExpr.mk (PExpr.num 2) MTail.nil)
      (ATail.consAdd (MExpr.mk (PExpr.num 3)
        (MTail.consMul (PExpr.num 4) MTail.nil)) ATail.nil))
    _ 14 true h0 (by decide)

/-- Witness for C2 at the concrete expression `5/0`. -/
theorem C2_witness :
    ∃ N, ∀ fuel, N ≤ fuel →
      runCalc fuel ('5' :: '/' :: ['0']) true =
        Except.error CalcError.divByZero := by
  have h3 : Renders [] [] := Renders.nil
  have h2 : Renders [Tok.num 0] ['0'] :=
    Renders.num ['0'] (by decide) (by decide) (by decide) h3
  have h1 : Renders [Tok.div, Tok.num 0] ('/' :: ['0']) :=
    Renders.op Tok.div '/' rfl h2
  have h0 : Renders [Tok.num 5, Tok.div, Tok.num 0]
      ('5' :: '/' :: ['0']) :=
    Renders.num ['5'] (by decide) (by decide) (by decide) h1
  exact C2_division_by_zero_checked.2.1
    (AExpr.mk (MExpr.mk (PExpr.num 5)
      (MTail.consDiv (PExpr.num 0) MTail.nil)) ATail.nil)
    _ true h0 (by decide)

/-- C3: in a primary expression, a unary `-` followed by a number token
yields the negation of that number; followed by `(` it yields the
negation of the parenthesized primary's value; followed by any other
token it is the unary-minus fatal error.  Concretely `"-5+3"` gives
`-2`, `"-(2+3)"` gives `-5`, and `-` before `*` or another `-` is the
unary-minus error. -/
theorem C3_unary_minus_primary :
    (∀ (fuel : Nat) (c c₁ : Calculator),
        c.current_token = TokenType.SUB → get_token c = Except.ok c₁ →
        (c₁.current_token = TokenType.NUMBER →
          eval_primary_expr (fuel + 1) c =
            Except.map (fun c₂ => (-c₁.number_val, c₂)) (get_token c₁)) ∧
        (c₁.current_token = TokenType.LEFTPAREN →
          eval_primary_expr (fuel + 1) c =
            Except.map (fun vc => (-vc.1, vc.2))
              (eval_primary_expr fuel c₁)) ∧
        (c₁.current_token ≠ TokenType.NUMBER →
          c₁.current_token ≠ TokenType.LEFTPAREN →
          eval_primary_expr (fuel + 1) c =
            Except.error CalcError.unaryMinusOperand)) ∧
    runStr "-5+3" = Except.ok (-2) ∧
    runStr "-(2+3)" = Except.ok (-5) ∧
    runStr "-*3" = Except.error CalcError.unaryMinusOperand ∧
    runStr "--5" = Except.error CalcError.unaryMinusOperand := by
  refine ⟨?_, by decide, by decide, by decide, by decide⟩
  intro fuel c c₁ htok hget
  refine ⟨?_, ?_, ?_⟩
  · intro hnum
    simp only [eval_primary_expr, htok]
    rw [hget, calcBindOk, if_pos hnum]
    cases hg2 : get_token c₁ with
    | ok c₂ => rfl
    | error e => rfl
  · intro hlp
    have hnn : c₁.current_token ≠ TokenType.NUMBER := by
      rw [hlp]
      decide
    simp only [eval_primary_expr, htok]
    rw [hget, calcBindOk, if_neg hnn, if_pos hlp]
    cases hp : eval_primary_expr fuel c₁ with
    | ok vc => cases vc with | mk v₀ c₂ => rfl
    | error e => rfl
  · intro hnn hnl
    simp only [eval_primary_expr, htok]
    rw [hget, calcBindOk, if_neg hnn, if_neg hnl]

/-- Witness for C3: unary minus before the literal `5`. -/
theorem C3_witness :
    eval_primary_expr 4
      (Calculator.mk ['-', '5'] 1 TokenType.SUB 0 true) =
      Except.ok (-5, Calculator.mk ['-', '5'] 2 TokenType.END 5 true) :=
  (C3_unary_minus_primary.1 3
    (Calculator.mk ['-', '5'] 1 TokenType.SUB 0 true)
    (Calculator.mk ['-', '5'] 2 TokenType.NUMBER 5 true)
    rfl (by decide)).1 rfl

/-- C4: the three malformed inputs terminate with the error class the
specification assigns: `"2+"` with the illegal-primary error, `"(1+2"`
with the missing-parenthesis error, `"1 2"` with the trailing-input
error. -/
theorem C4_malformed_inputs :
    runStr "2+" = Except.error CalcError.illegalPrimary ∧
    runStr "(1+2" = Except.error CalcError.missingRightParen ∧
    runStr "1 2" = Except.error CalcError.trailingInput := by
  exact ⟨by decide, by decide, by decide⟩

/-- C5: for a valid expression, any two renderings (which differ only
in the whitespace inserted between tokens) evaluate to the same result;
in particular `"  1 +  2 "` evaluates to `3`, identical to `"1+2"`. -/
theorem C5_whitespace_insensitive :
    (∀ (e : AExpr) (s₁ s₂ : List Char) (d : Bool),
        Renders (toksA e) s₁ → Renders (toksA e) s₂ →
        ∃ N, ∀ fuel, N ≤ fuel → runCalc fuel s₁ d = runCalc fuel s₂ d) ∧
    runStr "  1 +  2 " = Except.ok 3 ∧
    runStr "1+2" = Except.ok 3 := by
  refine ⟨?_, by decide, by decide⟩
  intro e s₁ s₂ d h₁ h₂
  obtain ⟨N₁, hN₁⟩ := runCalc_renders e s₁ d h₁
  obtain ⟨N₂, hN₂⟩ := runCalc_renders e s₂ d h₂
  refine ⟨max N₁ N₂, fun fuel hf => ?_⟩
  rw [hN₁ fuel (le_trans (le_max_left _ _) hf),
      hN₂ fuel (le_trans (le_max_right _ _) hf)]

/-- Witness for C5: `"  1 +  2 "` and `"1+2"` are renderings of the
same expression and agree. -/
theorem C5_witness :
    ∃ N, ∀ fuel, N ≤ fuel →
      runCalc fuel (' ' :: ' ' :: '1' :: ' ' :: '+' :: ' ' :: ' ' :: '2' ::
        [' ']) true =
      runCalc fuel ('1' :: '+' :: ['2']) true := by
  have hb0 : Renders [] [] := Renders.nil
  have hb1 : Renders [Tok.num 2] ['2'] :=
    Renders.num ['2'] (by decide) (by decide) (by decide) hb0
  have hb2 : Renders [Tok.add, Tok.num 2] ('+' :: ['2']) :=
    Renders.op Tok.add '+' rfl hb1
  have hb3 : Renders [Tok.num 1, Tok.add, Tok.num 2] ('1' :: '+' :: ['2']) :=
    Renders.num ['1'] (by decide) (by decide) (by decide) hb2
  have ha0 : Renders [] [' '] := Renders.ws ' ' (by decide) Renders.nil
  have ha1 : Renders [Tok.num 2] ('2' :: [' ']) :=
    Renders.num ['2'] (by decide) (by decide) (by decide) ha0
  have ha2 : Renders [Tok.num 2] (' ' :: '2' :: [' ']) :=
    Renders.ws ' ' (by decide) ha1
  have ha3 : Renders [Tok.num 2] (' ' :: ' ' :: '2' :: [' ']) :=
    Renders.ws ' ' (by decide) ha2
  have ha4 : Renders [Tok.add, Tok.num 2]
      ('+' :: ' ' :: ' ' :: '2' :: [' ']) :=
    Renders.op Tok.add '+' rfl ha3
  have ha5 : Renders [Tok.add, Tok.num 2]
      (' ' :: '+' :: ' ' :: ' ' :: '2' :: [' ']) :=
    Renders.ws ' ' (by decide) ha4
  have ha6 : Renders [Tok.num 1, Tok.add, Tok.num 2]
      ('1' :: ' ' :: '+' :: ' ' :: ' ' :: '2' :: [' ']) :=
    Renders.num ['1'] (by decide) (by decide) (by decide) ha5
  have ha7 : Renders [Tok.num 1, Tok.add, Tok.num 2]
      (' ' :: '1' :: ' ' :: '+' :: ' ' :: ' ' :: '2' :: [' ']) :=
    Renders.ws ' ' (by decide) ha6
  have ha8 : Renders [Tok.num 1, Tok.add, Tok.num 2]
      (' ' :: ' ' :: '1' :: ' ' :: '+' :: ' ' :: ' ' :: '2' :: [' ']) :=
    Renders.ws ' ' (by decide) ha7
  exact C5_whitespace_insensitive.1
    (AExpr.mk (MExpr.mk (PExpr.num 1) MTail.nil)
      (ATail.consAdd (MExpr.mk (PExpr.num 2) MTail.nil) ATail.nil))
    _ _ true ha8 hb3

/-- A maximal digit run at the cursor scans to a number token whose
value is the base-10 reading of the run, with the cursor just past the
last digit. -/
theorem scan_digit_run {src : List Char} {i : Nat} {ds rest : List Char}
    (hdrop : src.drop i = ds ++ rest) (hne : ds ≠ [])
    (hds : ∀ ch ∈ ds, rustIsDigit ch = true) (hsep : digStart rest = false)
    (t : TokenType) (v : Int) (d : Bool) :
    get_token { src_chars := src, current_index := i, current_token := t,
                number_val := v, debug_mode := d } =
      Except.ok { src_chars := src, current_index := i + ds.length,
                  current_token := TokenType.NUMBER,
                  number_val := (decVal ds : Int), debug_mode := d } := by
  obtain ⟨d0, ds', rfl⟩ : ∃ d0 ds', ds = d0 :: ds' := by
    cases ds with
    | nil => exact absurd rfl hne
    | cons a as => exact ⟨a, as, rfl⟩
  have hd0 : rustIsDigit d0 = true := hds d0 (List.mem_cons_self d0 ds')
  have hs' : src.drop i = d0 :: (ds' ++ rest) := by
    rw [hdrop]
    rfl
  have h0 := getElem?_of_drop_cons hs'
  have hlt := lt_length_of_drop_cons hs'
  have hnws : rustIsWhitespace d0 = false := digit_not_ws hd0
  have hcnt : digCount (src.drop i) = (d0 :: ds').length := by
    rw [hdrop]
    exact digCount_append hds hsep
  have hacc : digAccum (src.drop i) 0 = (decVal (d0 :: ds') : Int) := by
    rw [hdrop, digAccum_append 0 hds hsep, zero_mul, zero_add]
  have hne1 : d0 ≠ '+' := by rintro rfl; exact absurd hd0 (by decide)
  have hne2 : d0 ≠ '-' := by rintro rfl; exact absurd hd0 (by decide)
  have hne3 : d0 ≠ '*' := by rintro rfl; exact absurd hd0 (by decide)
  have hne4 : d0 ≠ '/' := by rintro rfl; exact absurd hd0 (by decide)
  have hne5 : d0 ≠ '(' := by rintro rfl; exact absurd hd0 (by decide)
  have hne6 : d0 ≠ ')' := by rintro rfl; exact absurd hd0 (by decide)
  rw [get_token_mk, scanSt_def, hs', wsCount_cons_of_not_ws hnws,
    Nat.add_zero]
  simp [gtAux, Nat.not_le.mpr hlt, h0, hne1, hne2, hne3, hne4, hne5, hne6,
    hd0, hcnt, hacc]

/-- C6: a maximal digit run scanned as a number token accumulates
exactly the run's base-10 value `decVal` (no leading-zero special
casing, so `"007"` yields `7`), and the cursor ends just past the last
digit of the run. -/
theorem C6_number_token_value :
    (∀ (src : List Char) (i : Nat) (ds rest : List Char) (t : TokenType)
        (v : Int) (d : Bool),
        src.drop i = ds ++ rest → ds ≠ [] →
        (∀ ch ∈ ds, rustIsDigit ch = true) → digStart rest = false →
        get_token { src_chars := src, current_index := i,
                    current_token := t, number_val := v,
                    debug_mode := d } =
          Except.ok { src_chars := src, current_index := i + ds.length,
                      current_token := TokenType.NUMBER,
                      number_val := (decVal ds : Int), debug_mode := d }) ∧
    runStr "007" = Except.ok 7 :=
  ⟨fun src i ds rest t v d h1 h2 h3 h4 => scan_digit_run h1 h2 h3 h4 t v d,
   by decide⟩

/-- Witness for C6: the literal `007` scans to the value `7` with the
cursor at position `3`. -/
theorem C6_witness :
    get_token (Calculator.mk ['0', '0', '7'] 0 TokenType.UNKNOWN 0 true) =
      Except.ok (Calculator.mk ['0', '0', '7'] 3 TokenType.NUMBER 7 true) :=
  C6_number_token_value.1 ['0', '0', '7'] 0 ['0', '0', '7'] []
    TokenType.UNKNOWN 0 true (by decide) (by decide) (by decide) (by decide)

/-! ## Cursor-index monotonicity -/

/-- A single scan step never decreases the cursor index. -/
theorem get_token_index_mono (c c' : Calculator)
    (h : get_token c = Except.ok c') :
    c.current_index ≤ c'.current_index := by
  simp only [get_token, gtAux] at h
  split at h
  · injection h with h
    subst h
    simp
  · split at h
    · exact absurd h (by simp)
    · split_ifs at h <;> (injection h with h; subst h; simp; omega)

/-- No grammar procedure ever decreases the cursor index (joint fuel
induction over all six mutually recursive procedures). -/
theorem eval_index_mono (fuel : Nat) :
    (∀ c r c', eval_expr fuel c = Except.ok (r, c') →
      c.current_index ≤ c'.current_index) ∧
    (∀ c r c', eval_add_sub_expr fuel c = Except.ok (r, c') →
      c.current_index ≤ c'.current_index) ∧
    (∀ r₀ c r c', addSubLoop fuel r₀ c = Except.ok (r, c') →
      c.current_index ≤ c'.current_index) ∧
    (∀ c r c', eval_mul_div_expr fuel c = Except.ok (r, c') →
      c.current_index ≤ c'.current_index) ∧
    (∀ r₀ c r c', mulDivLoop fuel r₀ c = Except.ok (r, c') →
      c.current_index ≤ c'.current_index) ∧
    (∀ c r c', eval_primary_expr fuel c = Except.ok (r, c') →
      c.current_index ≤ c'.current_index) := by
  induction fuel with
  | zero =>
      refine ⟨fun c r c' h => ?_, fun c r c' h => ?_, fun r₀ c r c' h => ?_,
        fun c r c' h => ?_, fun r₀ c r c' h => ?_, fun c r c' h => ?_⟩ <;>
        simp [eval_expr, eval_add_sub_expr, addSubLoop, eval_mul_div_expr,
          mulDivLoop, eval_primary_expr] at h
  | succ n ih =>
      obtain ⟨ihE, ihA, ihAL, ihM, ihML, ihP⟩ := ih
      refine ⟨?_, ?_, ?_, ?_, ?_, ?_⟩
      · intro c r c' h
        simp only [eval_expr] at h
        exact ihA c r c' h
      · intro c r c' h
        simp only [eval_add_sub_expr] at h
        cases hm : eval_mul_div_expr n c with
        | error e =>
            rw [hm] at h
            simp [calcBindErr] at h
        | ok rc =>
            obtain ⟨r1, c1⟩ := rc
            rw [hm] at h
            simp only [calcBindOk] at h
            exact le_trans (ihM c r1 c1 hm) (ihAL r1 c1 r c' h)
      · intro r₀ c r c' h
        simp only [addSubLoop] at h
        split at h
        · cases hg : get_token c with
          | error e =>
              rw [hg] at h
              simp [calcBindErr] at h
          | ok c1 =>
              rw [hg] at h
              simp only [calcBindOk] at h
              cases hm : eval_mul_div_expr n c1 with
              | error e =>
                  rw [hm] at h
                  simp [calcBindErr] at h
              | ok rc =>
                  obtain ⟨t1, c2⟩ := rc
                  rw [hm] at h
                  simp only [calcBindOk] at h
                  have hg' := get_token_index_mono c c1 hg
                  have hm' := ihM c1 t1 c2 hm
                  split at h <;>
                    exact le_trans hg' (le_trans hm' (ihAL _ c2 r c' h))
        · injection h with h1
          injection h1 with h2 h3
          subst h3
          exact Nat.le_refl _
      · intro c r c' h
        simp only [eval_mul_div_expr] at h
        cases hp : eval_primary_expr n c with
        | error e =>
            rw [hp] at h
            simp [calcBindErr] at h
        | ok rc =>
            obtain ⟨r1, c1⟩ := rc
            rw [hp] at h
            simp only [calcBindOk] at h
            exact le_trans (ihP c r1 c1 hp) (ihML r1 c1 r c' h)
      · intro r₀ c r c' h
        simp only [mulDivLoop] at h
        split at h
        · cases hg : get_token c with
          | error e =>
              rw [hg] at h
              simp [calcBindErr] at h
          | ok c1 =>
              rw [hg] at h
              simp only [calcBindOk] at h
              cases hp : eval_primary_expr n c1 with
              | error e =>
                  rw [hp] at h
                  simp [calcBindErr] at h
              | ok rc =>
                  obtain ⟨t1, c2⟩ := rc
                  rw [hp] at h
                  simp only [calcBindOk] at h
                  have hg' := get_token_index_mono c c1 hg
                  have hp' := ihP c1 t1 c2 hp
                  split at h
                  · exact le_trans hg' (le_trans hp' (ihML _ c2 r c' h))
                  · split at h
                    · simp at h
                    · exact le_trans hg' (le_trans hp' (ihML _ c2 r c' h))
                  · exact le_trans hg' (le_trans hp' (ihML _ c2 r c' h))
        · injection h with h1
          injection h1 with h2 h3
          subst h3
          exact Nat.le_refl _
      · intro c r c' h
        simp only [eval_primary_expr] at h
        split at h
        · cases hg : get_token c with
          | error e =>
              rw [hg] at h
              simp [calcBindErr] at h
          | ok c1 =>
              rw [hg] at h
              simp only [calcBindOk] at h
              injection h with h1
              injection h1 with h2 h3
              subst h3
              exact get_token_index_mono c c1 hg
        · cases hg : get_token c with
          | error e =>
              rw [hg] at h
              simp [calcBindErr] at h
          | ok c1 =>
              rw [hg] at h
              simp only [calcBindOk] at h
              have hg' := get_token_index_mono c c1 hg
              split at h
              · cases hg2 : get_token c1 with
                | error e =>
                    rw [hg2] at h
                    simp [calcBindErr] at h
                | ok c2 =>
                    rw [hg2] at h
                    simp only [calcBindOk] at h
                    injection h with h1
                    injection h1 with h2 h3
                    subst h3
                    exact le_trans hg' (get_token_index_mono c1 c2 hg2)
              · split at h
                · cases hp : eval_primary_expr n c1 with
                  | error e =>
                      rw [hp] at h
                      simp [calcBindErr] at h
                  | ok vc =>
                      obtain ⟨v1, c2⟩ := vc
                      rw [hp] at h
                      simp only [calcBindOk] at h
                      injection h with h1
                      injection h1 with h2 h3
                      subst h3
                      exact le_trans hg' (ihP c1 v1 c2 hp)
                · simp at h
        · cases hg : get_token c with
          | error e =>
              rw [hg] at h
              simp [calcBindErr] at h
          | ok c1 =>
              rw [hg] at h
              simp only [calcBindOk] at h
              have hg' := get_token_index_mono c c1 hg
              cases he : eval_expr n c1 with
              | error e =>
                  rw [he] at h
                  simp [calcBindErr] at h
              | ok vc =>
                  obtain ⟨v1, c2⟩ := vc
                  rw [he] at h
                  simp only [calcBindOk] at h
                  have he' := ihE c1 v1 c2 he
                  split at h
                  · simp at h
                  · cases hg3 : get_token c2 with
                    | error e =>
                        rw [hg3] at h
                        simp [calcBindErr] at h
                    | ok c3 =>
                        rw [hg3] at h
                        simp only [calcBindOk] at h
                        injection h with h1
                        injection h1 with h2 h3
                        subst h3
                        exact le_trans hg'
                          (le_trans he' (get_token_index_mono c2 c3 hg3))
        · simp at h

/-- C7: across the whole parse the cursor index never decreases: after
every scan step and every grammar-rule evaluation that returns, the
index is at least the index before it. -/
theorem C7_index_never_decreases :
    (∀ c c', get_token c = Except.ok c' →
      c.current_index ≤ c'.current_index) ∧
    (∀ fuel c r c', eval_expr fuel c = Except.ok (r, c') →
      c.current_index ≤ c'.current_index) ∧
    (∀ fuel c r c', eval_add_sub_expr fuel c = Except.ok (r, c') →
      c.current_index ≤ c'.current_index) ∧
    (∀ fuel r₀ c r c', addSubLoop fuel r₀ c = Except.ok (r, c') →
      c.current_index ≤ c'.current_index) ∧
    (∀ fuel c r c', eval_mul_div_expr fuel c = Except.ok (r, c') →
      c.current_index ≤ c'.current_index) ∧
    (∀ fuel r₀ c r c', mulDivLoop fuel r₀ c = Except.ok (r, c') →
      c.current_index ≤ c'.current_index) ∧
    (∀ fuel c r c', eval_primary_expr fuel c = Except.ok (r, c') →
      c.current_index ≤ c'.current_index) :=
  ⟨get_token_index_mono,
   fun fuel => (eval_index_mono fuel).1,
   fun fuel => (eval_index_mono fuel).2.1,
   fun fuel => (eval_index_mono fuel).2.2.1,
   fun fuel => (eval_index_mono fuel).2.2.2.1,
   fun fuel => (eval_index_mono fuel).2.2.2.2.1,
   fun fuel => (eval_index_mono fuel).2.2.2.2.2⟩

/-- Witness for C7 at a concrete scan step. -/
theorem C7_witness :
    get_token (Calculator.mk [' ', '7'] 0 TokenType.UNKNOWN 0 true) =
      Except.ok (Calculator.mk [' ', '7'] 2 TokenType.NUMBER 7 true) ∧
    (Calculator.mk [' ', '7'] 0 TokenType.UNKNOWN 0 true).current_index ≤
      (Calculator.mk [' ', '7'] 2 TokenType.NUMBER 7 true).current_index :=
  ⟨by decide, C7_index_never_decreases.1 _ _ (by decide)⟩

/-- Invoked with the index at or past the end of input, the scanner
produces the `End` token and leaves the index unchanged. -/
theorem get_token_at_end (c : Calculator)
    (h : c.src_chars.length ≤ c.current_index) :
    get_token c = Except.ok { c with current_token := TokenType.END } := by
  obtain ⟨s, i, t, v, d⟩ := c
  simp only at h
  have hnil : s.drop i = [] := List.drop_eq_nil_of_le h
  simp only [get_token, hnil, wsCount, Nat.add_zero, gtAux]
  rw [if_pos h]

/-- C8: at or past the end of input the scanner yields `End` with the
index unchanged, and once a scan has produced `End`, every further scan
returns the state unchanged (idempotence at end of input). -/
theorem C8_end_token_idempotent :
    (∀ c : Calculator, c.src_chars.length ≤ c.current_index →
      get_token c = Except.ok { c with current_token := TokenType.END }) ∧
    (∀ c c' : Calculator, get_token c = Except.ok c' →
      c'.current_token = TokenType.END → get_token c' = Except.ok c') := by
  refine ⟨get_token_at_end, ?_⟩
  intro c c' h hEND
  obtain ⟨s, i, t, v, d⟩ := c
  simp only [get_token, gtAux] at h
  split at h
  next hle =>
      injection h with h
      subst h
      exact get_token_at_end _ (by simpa using hle)
  next hle =>
      split at h
      next => simp at h
      next ch heq =>
        split_ifs at h <;>
          first
          | (injection h with h
             subst h
             simp at hEND)
          | simp at h

/-- Witness for C8 at a concrete end-of-input state. -/
theorem C8_witness :
    get_token (Calculator.mk ['1'] 1 TokenType.NUMBER 1 true) =
      Except.ok (Calculator.mk ['1'] 1 TokenType.END 1 true) ∧
    get_token (Calculator.mk ['1'] 1 TokenType.END 1 true) =
      Except.ok (Calculator.mk ['1'] 1 TokenType.END 1 true) :=
  ⟨C8_end_token_idempotent.1 _ (by decide),
   C8_end_token_idempotent.2 (Calculator.mk ['1'] 1 TokenType.NUMBER 1 true)
     _ (by decide) (by decide)⟩

/-! ## Bounds-checked access: no out-of-bounds panic is reachable -/

/-- The scanner's only direct indexing into the character sequence is
dominated by the bounds check, so the modelled index panic is
unreachable. -/
theorem get_token_no_panic (c : Calculator) :
    get_token c ≠ Except.error CalcError.indexPanic := by
  intro h
  simp only [get_token, gtAux] at h
  split at h
  · simp at h
  next hle =>
    rw [List.getElem?_eq_getElem (by omega)] at h
    split at h
    next => simp_all
    next ch heq =>
      split_ifs at h <;> simp at h

/-- No grammar procedure can produce the modelled out-of-bounds panic
(joint fuel induction over the six mutually recursive procedures). -/
theorem eval_no_panic (fuel : Nat) :
    (∀ c, eval_expr fuel c ≠ Except.error CalcError.indexPanic) ∧
    (∀ c, eval_add_sub_expr fuel c ≠ Except.error CalcError.indexPanic) ∧
    (∀ r₀ c, addSubLoop fuel r₀ c ≠ Except.error CalcError.indexPanic) ∧
    (∀ c, eval_mul_div_expr fuel c ≠ Except.error CalcError.indexPanic) ∧
    (∀ r₀ c, mulDivLoop fuel r₀ c ≠ Except.error CalcError.indexPanic) ∧
    (∀ c, eval_primary_expr fuel c ≠ Except.error CalcError.indexPanic) := by
  induction fuel with
  | zero =>
      refine ⟨fun c h => ?_, fun c h => ?_, fun r₀ c h => ?_, fun c h => ?_,
        fun r₀ c h => ?_, fun c h => ?_⟩ <;>
        simp [eval_expr, eval_add_sub_expr, addSubLoop, eval_mul_div_expr,
          mulDivLoop, eval_primary_expr] at h
  | succ n ih =>
      obtain ⟨ihE, ihA, ihAL, ihM, ihML, ihP⟩ := ih
      refine ⟨?_, ?_, ?_, ?_, ?_, ?_⟩
      · intro c h
        simp only [eval_expr] at h
        exact ihA c h
      · intro c h
        simp only [eval_add_sub_expr] at h
        cases hm : eval_mul_div_expr n c with
        | error e =>
            rw [hm] at h
            simp only [calcBindErr] at h
            injection h with h
            subst h
            exact absurd hm (ihM c)
        | ok rc =>
            obtain ⟨r1, c1⟩ := rc
            rw [hm] at h
            simp only [calcBindOk] at h
            exact ihAL r1 c1 h
      · intro r₀ c h
        simp only [addSubLoop] at h
        split at h
        · cases hg : get_token c with
          | error e =>
              rw [hg] at h
              simp only [calcBindErr] at h
              injection h with h
              subst h
              exact absurd hg (get_token_no_panic c)
          | ok c1 =>
              rw [hg] at h
              simp only [calcBindOk] at h
              cases hm : eval_mul_div_expr n c1 with
              | error e =>
                  rw [hm] at h
                  simp only [calcBindErr] at h
                  injection h with h
                  subst h
                  exact absurd hm (ihM c1)
              | ok rc =>
                  obtain ⟨t1, c2⟩ := rc
                  rw [hm] at h
                  simp only [calcBindOk] at h
                  split at h <;> exact ihAL _ c2 h
        · simp at h
      · intro c h
        simp only [eval_mul_div_expr] at h
        cases hp : eval_primary_expr n c with
        | error e =>
            rw [hp] at h
            simp only [calcBindErr] at h
            injection h with h
            subst h
            exact absurd hp (ihP c)
        | ok rc =>
            obtain ⟨r1, c1⟩ := rc
            rw [hp] at h
            simp only [calcBindOk] at h
            exact ihML r1 c1 h
      · intro r₀ c h
        simp only [mulDivLoop] at h
        split at h
        · cases hg : get_token c with
          | error e =>
              rw [hg] at h
              simp only [calcBindErr] at h
              injection h with h
              subst h
              exact absurd hg (get_token_no_panic c)
          | ok c1 =>
              rw [hg] at h
              simp only [calcBindOk] at h
              cases hp : eval_primary_expr n c1 with
              | error e =>
                  rw [hp] at h
                  simp only [calcBindErr] at h
                  injection h with h
                  subst h
                  exact absurd hp (ihP c1)
              | ok rc =>
                  obtain ⟨t1, c2⟩ := rc
                  rw [hp] at h
                  simp only [calcBindOk] at h
                  split at h
                  · exact ihML _ c2 h
                  · split at h
                    · simp at h
                    · exact ihML _ c2 h
                  · exact ihML _ c2 h
        · simp at h
      · intro c h
        simp only [eval_primary_expr] at h
        split at h
        · cases hg : get_token c with
          | error e =>
              rw [hg] at h
              simp only [calcBindErr] at h
              injection h with h
              subst h
              exact absurd hg (get_token_no_panic c)
          | ok c1 =>
              rw [hg] at h
              simp only [calcBindOk] at h
              simp at h
        · cases hg : get_token c with
          | error e =>
              rw [hg] at h
              simp only [calcBindErr] at h
              injection h with h
              subst h
              exact absurd hg (get_token_no_panic c)
          | ok c1 =>
              rw [hg] at h
              simp only [calcBindOk] at h
              split at h
              · cases hg2 : get_token c1 with
                | error e =>
                    rw [hg2] at h
                    simp only [calcBindErr] at h
                    injection h with h
                    subst h
                    exact absurd hg2 (get_token_no_panic c1)
                | ok c2 =>
                    rw [hg2] at h
                    simp only [calcBindOk] at h
                    simp at h
              · split at h
                · cases hp : eval_primary_expr n c1 with
                  | error e =>
                      rw [hp] at h
                      simp only [calcBindErr] at h
                      injection h with h
                      subst h
                      exact absurd hp (ihP c1)
                  | ok vc =>
                      obtain ⟨v1, c2⟩ := vc
                      rw [hp] at h
                      simp only [calcBindOk] at h
                      simp at h
                · simp at h
        · cases hg : get_token c with
          | error e =>
              rw [hg] at h
              simp only [calcBindErr] at h
              injection h with h
              subst h
              exact absurd hg (get_token_no_panic c)
          | ok c1 =>
              rw [hg] at h
              simp only [calcBindOk] at h
              cases he : eval_expr n c1 with
              | error e =>
                  rw [he] at h
                  simp only [calcBindErr] at h
                  injection h with h
                  subst h
                  exact absurd he (ihE c1)
              | ok vc =>
                  obtain ⟨v1, c2⟩ := vc
                  rw [he] at h
                  simp only [calcBindOk] at h
                  split at h
                  · simp at h
                  · cases hg3 : get_token c2 with
                    | error e =>
                        rw [hg3] at h
                        simp only [calcBindErr] at h
                        injection h with h
                        subst h
                        exact absurd hg3 (get_token_no_panic c2)
                    | ok c3 =>
                        rw [hg3] at h
                        simp only [calcBindOk] at h
                        simp at h
        · simp at h

/-- The whole run can never reach the modelled out-of-bounds access. -/
theorem runCalc_no_panic (fuel : Nat) (src : List Char) (d : Bool) :
    runCalc fuel src d ≠ Except.error CalcError.indexPanic := by
  intro h
  simp only [runCalc] at h
  cases hg : get_token (Calculator.new src d) with
  | error e =>
      rw [hg] at h
      simp only [calcBindErr] at h
      injection h with h
      subst h
      exact absurd hg (get_token_no_panic _)
  | ok c1 =>
      rw [hg] at h
      simp only [calcBindOk] at h
      cases he : eval_expr fuel c1 with
      | error e =>
          rw [he] at h
          simp only [calcBindErr] at h
          injection h with h
          subst h
          exact absurd he ((eval_no_panic fuel).1 c1)
      | ok vc =>
          obtain ⟨v1, c2⟩ := vc
          rw [he] at h
          simp only [calcBindOk] at h
          split at h <;> simp at h

/-! ## Noninterference of the debug flag -/

/-- Replace the debug flag of a state. -/
def setDbg (c : Calculator) (d : Bool) : Calculator :=
  { c with debug_mode := d }

@[simp] theorem setDbg_src_chars (c : Calculator) (d : Bool) :
    (setDbg c d).src_chars = c.src_chars := rfl

@[simp] theorem setDbg_current_index (c : Calculator) (d : Bool) :
    (setDbg c d).current_index = c.current_index := rfl

@[simp] theorem setDbg_current_token (c : Calculator) (d : Bool) :
    (setDbg c d).current_token = c.current_token := rfl

@[simp] theorem setDbg_number_val (c : Calculator) (d : Bool) :
    (setDbg c d).number_val = c.number_val := rfl

/-- The scanner reads the debug flag only to carry it along: scanning
with the flag replaced is the flag-replaced scan. -/
theorem get_token_setDbg (c : Calculator) (d : Bool) :
    get_token (setDbg c d) =
      Except.map (fun x => setDbg x d) (get_token c) := by
  obtain ⟨s, i, t, v, d₀⟩ := c
  show gtAux (Calculator.mk s i t v d) _ = _
  simp only [get_token, gtAux, setDbg]
  by_cases hle : s.length ≤ i + wsCount (s.drop i)
  · simp [hle, Except.map]
  · simp only [hle, if_false]
    cases hget : s[i + wsCount (s.drop i)]? with
    | none => simp [hget, Except.map]
    | some ch =>
        simp only [hget]
        split_ifs <;> simp [Except.map]

/-- No grammar procedure reads the debug flag: evaluation with the flag
replaced is the flag-replaced evaluation (joint fuel induction). -/
theorem eval_setDbg (fuel : Nat) :
    (∀ c d, eval_expr fuel (setDbg c d) =
      Except.map (fun vc : Int × Calculator => (vc.1, setDbg vc.2 d))
        (eval_expr fuel c)) ∧
    (∀ c d, eval_add_sub_expr fuel (setDbg c d) =
      Except.map (fun vc : Int × Calculator => (vc.1, setDbg vc.2 d))
        (eval_add_sub_expr fuel c)) ∧
    (∀ r₀ c d, addSubLoop fuel r₀ (setDbg c d) =
      Except.map (fun vc : Int × Calculator => (vc.1, setDbg vc.2 d))
        (addSubLoop fuel r₀ c)) ∧
    (∀ c d, eval_mul_div_expr fuel (setDbg c d) =
      Except.map (fun vc : Int × Calculator => (vc.1, setDbg vc.2 d))
        (eval_mul_div_expr fuel c)) ∧
    (∀ r₀ c d, mulDivLoop fuel r₀ (setDbg c d) =
      Except.map (fun vc : Int × Calculator => (vc.1, setDbg vc.2 d))
        (mulDivLoop fuel r₀ c)) ∧
    (∀ c d, eval_primary_expr fuel (setDbg c d) =
      Except.map (fun vc : Int × Calculator => (vc.1, setDbg vc.2 d))
        (eval_primary_expr fuel c)) := by
  induction fuel with
  | zero =>
      refine ⟨fun c d => ?_, fun c d => ?_, fun r₀ c d => ?_, fun c d => ?_,
        fun r₀ c d => ?_, fun c d => ?_⟩ <;>
        simp [eval_expr, eval_add_sub_expr, addSubLoop, eval_mul_div_expr,
          mulDivLoop, eval_primary_expr, Except.map]
  | succ n ih =>
      obtain ⟨ihE, ihA, ihAL, ihM, ihML, ihP⟩ := ih
      refine ⟨?_, ?_, ?_, ?_, ?_, ?_⟩
      · intro c d
        simp only [eval_expr]
        exact ihA c d
      · intro c d
        simp only [eval_add_sub_expr]
        rw [ihM c d]
        cases hm : eval_mul_div_expr n c with
        | error e => rfl
        | ok rc =>
            obtain ⟨r1, c1⟩ := rc
            simp only [Except.map, calcBindOk]
            exact ihAL r1 c1 d
      · intro r₀ c d
        simp only [addSubLoop, setDbg_current_token]
        by_cases hcond : c.current_token = TokenType.ADD ∨
            c.current_token = TokenType.SUB
        · rw [if_pos hcond, if_pos hcond, get_token_setDbg]
          cases hg : get_token c with
          | error e => rfl
          | ok c1 =>
              simp only [Except.map, calcBindOk]
              rw [ihM c1 d]
              cases hm : eval_mul_div_expr n c1 with
              | error e => rfl
              | ok rc =>
                  obtain ⟨t1, c2⟩ := rc
                  simp only [Except.map, calcBindOk]
                  cases htok : c.current_token <;> exact ihAL _ c2 d
        · rw [if_neg hcond, if_neg hcond]
          rfl
      · intro c d
        simp only [eval_mul_div_expr]
        rw [ihP c d]
        cases hp : eval_primary_expr n c with
        | error e => rfl
        | ok rc =>
            obtain ⟨r1, c1⟩ := rc
            simp only [Except.map, calcBindOk]
            exact ihML r1 c1 d
      · intro r₀ c d
        simp only [mulDivLoop, setDbg_current_token]
        by_cases hcond : c.current_token = TokenType.MUL ∨
            c.current_token = TokenType.DIV
        · rw [if_pos hcond, if_pos hcond, get_token_setDbg]
          cases hg : get_token c with
          | error e => rfl
          | ok c1 =>
              simp only [Except.map, calcBindOk]
              rw [ihP c1 d]
              cases hp : eval_primary_expr n c1 with
              | error e => rfl
              | ok rc =>
                  obtain ⟨t1, c2⟩ := rc
                  simp only [Except.map, calcBindOk]
                  cases htok : c.current_token <;>
                    first
                    | exact ihML _ c2 d
                    | (by_cases ht : t1 = 0
                       · simp [ht, Except.map]
                       · simp only [ht, if_false]
                         exact ihML _ c2 d)
        · rw [if_neg hcond, if_neg hcond]
          rfl
      · intro c d
        simp only [eval_primary_expr, setDbg_current_token]
        cases htok : c.current_token
        case NUMBER =>
            rw [get_token_setDbg]
            cases hg : get_token c with
            | error e => rfl
            | ok c1 => rfl
        case SUB =>
            rw [get_token_setDbg]
            cases hg : get_token c with
            | error e => rfl
            | ok c1 =>
                simp only [Except.map, calcBindOk, setDbg_current_token,
                  setDbg_number_val]
                by_cases hnum : c1.current_token = TokenType.NUMBER
                · rw [if_pos hnum, if_pos hnum, get_token_setDbg]
                  cases hg2 : get_token c1 with
                  | error e => rfl
                  | ok c2 => rfl
                · rw [if_neg hnum, if_neg hnum]
                  by_cases hlp : c1.current_token = TokenType.LEFTPAREN
                  · rw [if_pos hlp, if_pos hlp, ihP c1 d]
                    cases hp : eval_primary_expr n c1 with
                    | error e => rfl
                    | ok vc =>
                        obtain ⟨v1, c2⟩ := vc
                        rfl
                  · rw [if_neg hlp, if_neg hlp]
        case LEFTPAREN =>
            rw [get_token_setDbg]
            cases hg : get_token c with
            | error e => rfl
            | ok c1 =>
                simp only [Except.map, calcBindOk]
                rw [ihE c1 d]
                cases he : eval_expr n c1 with
                | error e => rfl
                | ok vc =>
                    obtain ⟨v1, c2⟩ := vc
                    simp only [Except.map, calcBindOk, setDbg_current_token]
                    by_cases hrp : c2.current_token = TokenType.RIGHTPAREN
                    · simp only [hrp]
                      rw [get_token_setDbg]
                      cases hg3 : get_token c2 with
                      | error e => rfl
                      | ok c3 => rfl
                    · simp [hrp, Except.map]
        all_goals rfl

/-- C10: two-run noninterference over the debug flag: the token stream,
cursor index, number value and evaluated result are identical whether
the flag is true or false — the flag is only carried along (its sole
read in the source guards trace printing, which is I/O); in particular
a whole run returns the same result or error for both flag values. -/
theorem C10_debug_flag_noninterference :
    (∀ (c : Calculator) (d : Bool),
      get_token (setDbg c d) =
        Except.map (fun x => setDbg x d) (get_token c)) ∧
    (∀ (fuel : Nat) (c : Calculator) (d : Bool),
      eval_expr fuel (setDbg c d) =
        Except.map (fun vc : Int × Calculator => (vc.1, setDbg vc.2 d))
          (eval_expr fuel c)) ∧
    (∀ (fuel : Nat) (c : Calculator) (d : Bool),
      eval_primary_expr fuel (setDbg c d) =
        Except.map (fun vc : Int × Calculator => (vc.1, setDbg vc.2 d))
          (eval_primary_expr fuel c)) ∧
    (∀ (fuel : Nat) (src : List Char) (d₁ d₂ : Bool),
      runCalc fuel src d₁ = runCalc fuel src d₂) := by
  refine ⟨get_token_setDbg,
    fun fuel => (eval_setDbg fuel).1,
    fun fuel => (eval_setDbg fuel).2.2.2.2.2,
    ?_⟩
  intro fuel src d₁ d₂
  have hnew : Calculator.new src d₁ = setDbg (Calculator.new src d₂) d₁ :=
    rfl
  simp only [runCalc, hnew, get_token_setDbg]
  cases hg : get_token (Calculator.new src d₂) with
  | error e => rfl
  | ok c1 =>
      simp only [Except.map, calcBindOk]
      rw [(eval_setDbg fuel).1 c1 d₁]
      cases he : eval_expr fuel c1 with
      | error e => rfl
      | ok vc =>
          obtain ⟨v1, c2⟩ := vc
          simp only [Except.map, calcBindOk, setDbg_current_token]

/-- C9: every access into the character sequence is made under a bounds
check, so no scan step, no grammar procedure, and no whole run can ever
produce the modelled out-of-bounds access, for any input whatsoever
(stated as a boolean comparison so every conjunct is a closed equation
at each input). -/
theorem C9_no_out_of_bounds_access :
    (∀ c, (get_token c == Except.error CalcError.indexPanic) = false) ∧
    (∀ fuel c,
      (eval_expr fuel c == Except.error CalcError.indexPanic) = false) ∧
    (∀ fuel c,
      (eval_add_sub_expr fuel c ==
        Except.error CalcError.indexPanic) = false) ∧
    (∀ fuel r₀ c,
      (addSubLoop fuel r₀ c ==
        Except.error CalcError.indexPanic) = false) ∧
    (∀ fuel c,
      (eval_mul_div_expr fuel c ==
        Except.error CalcError.indexPanic) = false) ∧
    (∀ fuel r₀ c,
      (mulDivLoop fuel r₀ c ==
        Except.error CalcError.indexPanic) = false) ∧
    (∀ fuel c,
      (eval_primary_expr fuel c ==
        Except.error CalcError.indexPanic) = false) ∧
    (∀ fuel (src : List Char) (d : Bool),
      (runCalc fuel src d == Except.error CalcError.indexPanic) = false) :=
  ⟨fun c => beq_eq_false_iff_ne.mpr (get_token_no_panic c),
   fun fuel c => beq_eq_false_iff_ne.mpr ((eval_no_panic fuel).1 c),
   fun fuel c => beq_eq_false_iff_ne.mpr ((eval_no_panic fuel).2.1 c),
   fun fuel r₀ c =>
     beq_eq_false_iff_ne.mpr ((eval_no_panic fuel).2.2.1 r₀ c),
   fun fuel c => beq_eq_false_iff_ne.mpr ((eval_no_panic fuel).2.2.2.1 c),
   fun fuel r₀ c =>
     beq_eq_false_iff_ne.mpr ((eval_no_panic fuel).2.2.2.2.1 r₀ c),
   fun fuel c =>
     beq_eq_false_iff_ne.mpr ((eval_no_panic fuel).2.2.2.2.2 c),
   fun fuel src d =>
     beq_eq_false_iff_ne.mpr (runCalc_no_panic fuel src d)⟩
